import Mathlib

/-!
# AVIF export plug-in: tile planning and gray expansion

A verification development for `src/file-avif-save.c`.

* `tile_log2_u32` and `avifplugin_set_tiles_u32` choose the tile grid of the encoder
  in the 32-bit `unsigned int` arithmetic of the code: sums, products and left shifts
  wrap at `2^32` and a shift by 32 or more has no result.
* `tile_log2`, `avifplugin_set_tiles_recursive` and `avifplugin_set_tiles` are the same
  computation over the natural numbers, without wrap-around.  The `for` loop of
  `tile_log2` is run with a step budget and yields `none` when the budget is used up,
  which happens only when the loop does not end.  The two computations agree for
  frames up to `2^32 - 8` in each dimension whose superblock counts have a product of
  at most `576 * 2^22`.
* `save_layer_rgb_u32` is the part of `save_layer` that fills the `avifRGBImage` handed
  to the colour conversion (the four gray expansion loops and the colour branch), with
  the `uint32_t` row size of the code; `save_layer_rgb` takes the row size over the
  natural numbers; `save_layer_gray_traced` runs the gray loops and records the
  offsets read and written.
* `clamp_quantizers` is the clamping of the two quantizers in `save_layer`.
-/

namespace AvifSave

/-! ## Tile planning -/

def MAX_TILE_WIDTH : Nat := 4096
def MAX_TILE_AREA : Nat := 4096 * 2304
def MAX_TILE_ROWS : Nat := 64
def MAX_TILE_COLS : Nat := 64

/-- Function `Max` of the source: `a > b ? a : b`. -/
def Max (a b : Nat) : Nat := if a > b then a else b

/-- Function `Min` of the source: `a < b ? a : b`. -/
def Min (a b : Nat) : Nat := if a < b then a else b

/-- The loop `for (k = 0; (blkSize << k) < target; k++)` entered with counter `k` and a
budget of `fuel` evaluations of the loop condition. -/
def tile_log2_loop (blkSize target : Nat) : Nat → Nat → Option Nat
  | 0, _ => none
  | fuel + 1, k =>
    if blkSize <<< k < target then tile_log2_loop blkSize target fuel (k + 1) else some k

/-- Function `tile_log2` of the source.  The budget `target + 1` is never used up when
`blkSize > 0`; for `blkSize = 0 < target` the C loop does not end and the result is
`none`. -/
def tile_log2 (blkSize target : Nat) : Option Nat :=
  tile_log2_loop blkSize target (target + 1) 0

/-- The two fields of `avifEncoder` that the tile planner writes. -/
structure avifEncoder where
  tileColsLog2 : Nat
  tileRowsLog2 : Nat
deriving DecidableEq

/-- Function `avifplugin_set_tiles_recursive` of the source; the encoder is passed in and the
updated encoder is returned. -/
def avifplugin_set_tiles_recursive (width height Log2Tiles_needed maxLog2TileCols
    maxLog2TileRows : Nat) (encoder : avifEncoder) : avifEncoder :=
  match Log2Tiles_needed with
  | 0 => encoder
  | needed + 1 =>
    if width > height then
      if encoder.tileColsLog2 < maxLog2TileCols then
        avifplugin_set_tiles_recursive (width >>> 1) height needed maxLog2TileCols
          maxLog2TileRows ⟨encoder.tileColsLog2 + 1, encoder.tileRowsLog2⟩
      else if encoder.tileRowsLog2 < maxLog2TileRows then
        avifplugin_set_tiles_recursive width (height >>> 1) needed maxLog2TileCols
          maxLog2TileRows ⟨encoder.tileColsLog2, encoder.tileRowsLog2 + 1⟩
      else encoder
    else
      if encoder.tileRowsLog2 < maxLog2TileRows then
        avifplugin_set_tiles_recursive width (height >>> 1) needed maxLog2TileCols
          maxLog2TileRows ⟨encoder.tileColsLog2, encoder.tileRowsLog2 + 1⟩
      else if encoder.tileColsLog2 < maxLog2TileCols then
        avifplugin_set_tiles_recursive (width >>> 1) height needed maxLog2TileCols
          maxLog2TileRows ⟨encoder.tileColsLog2 + 1, encoder.tileRowsLog2⟩
      else encoder

/-- Function `avifplugin_set_tiles` of the source, computed over the natural numbers:
no sum or product wraps and every call of `tile_log2` returns.  Both tile fields of the
encoder are overwritten.  The code itself is `avifplugin_set_tiles_u32`; the two agree
for frames up to `2^32 - 8` in each dimension whose superblock counts have a product of
at most `576 * 2^22`, and differ or have no result beyond. -/
def avifplugin_set_tiles (FrameWidth FrameHeight : Nat) (encoder : avifEncoder) :
    Option avifEncoder := do
  let MiCols := 2 * ((FrameWidth + 7) >>> 3)
  let MiRows := 2 * ((FrameHeight + 7) >>> 3)
  let sbCols := (MiCols + 31) >>> 5
  let sbRows := (MiRows + 31) >>> 5
  let sbShift := 5
  let sbSize := sbShift + 2
  let maxTileWidthSb := MAX_TILE_WIDTH >>> sbSize
  let maxTileAreaSb := MAX_TILE_AREA >>> (2 * sbSize)
  let minLog2TileCols ← tile_log2 maxTileWidthSb sbCols
  let maxLog2TileCols ← tile_log2 1 (Min sbCols MAX_TILE_COLS)
  let maxLog2TileRows ← tile_log2 1 (Min sbRows MAX_TILE_ROWS)
  let areaLog2 ← tile_log2 maxTileAreaSb (sbRows * sbCols)
  let minLog2Tiles := Max minLog2TileCols areaLog2
  let encoder : avifEncoder := ⟨minLog2TileCols, encoder.tileRowsLog2⟩
  let encoder : avifEncoder := ⟨encoder.tileColsLog2, 0⟩
  if minLog2Tiles > minLog2TileCols then
    let Log2Tiles_needed := minLog2Tiles - minLog2TileCols
    let tile_width := FrameWidth >>> minLog2TileCols
    pure (avifplugin_set_tiles_recursive tile_width FrameHeight Log2Tiles_needed
      maxLog2TileCols maxLog2TileRows encoder)
  else
    pure encoder

/-! The locals of `avifplugin_set_tiles` over the natural numbers, named so that
statements can refer to them. -/

/-- Local `sbCols` (and, applied to the height, `sbRows`) of `avifplugin_set_tiles`. -/
def sbCount (frame : Nat) : Nat := ((2 * ((frame + 7) >>> 3)) + 31) >>> 5

/-- Local `minLog2TileCols` of `avifplugin_set_tiles`. -/
def minLog2TileCols (FrameWidth : Nat) : Option Nat :=
  tile_log2 (MAX_TILE_WIDTH >>> 7) (sbCount FrameWidth)

/-- Local `maxLog2TileCols` of `avifplugin_set_tiles`; applied to the height and with
`MAX_TILE_ROWS` it is `maxLog2TileRows`. -/
def maxLog2Tile (frame cap : Nat) : Option Nat := tile_log2 1 (Min (sbCount frame) cap)

/-- Local `minLog2Tiles` of `avifplugin_set_tiles`. -/
def minLog2Tiles (FrameWidth FrameHeight : Nat) : Option Nat := do
  let a ← minLog2TileCols FrameWidth
  let b ← tile_log2 (MAX_TILE_AREA >>> 14) (sbCount FrameHeight * sbCount FrameWidth)
  pure (Max a b)

/-! ## Tile planning in `unsigned int` arithmetic

The same computation with every `unsigned int` result reduced modulo `2^32`.  The
arguments are taken to be `unsigned int` values, that is below `2^32`. -/

/-- The loop of `tile_log2` in `unsigned int` arithmetic: `blkSize << k` is reduced
modulo `2^32`, and a shift by 32 or more, which C leaves undefined, has no result.
The counter never passes 32, so the budget of 33 evaluations of the loop condition is
never used up before that. -/
def tile_log2_loop_u32 (blkSize target : Nat) : Nat → Nat → Option Nat
  | 0, _ => none
  | fuel + 1, k =>
    if k < 32 then
      if (blkSize <<< k) % 2 ^ 32 < target then
        tile_log2_loop_u32 blkSize target fuel (k + 1)
      else some k
    else none

/-- Function `tile_log2` of the source in `unsigned int` arithmetic. -/
def tile_log2_u32 (blkSize target : Nat) : Option Nat :=
  tile_log2_loop_u32 blkSize target 33 0

/-- Function `avifplugin_set_tiles` of the source in `unsigned int` arithmetic.  Every
sum, product and left shift is reduced modulo `2^32`; the right shifts cannot wrap, the
subtraction is guarded by the comparison before it, and the shift amount of
`FrameWidth >> minLog2TileCols` is a result of `tile_log2` and so below 32.  In
`avifplugin_set_tiles_recursive` the only operations are `>> 1`, `- 1` on a non-zero
count and `++` on a count below its cap, none of which can wrap, so it is used as it
is. -/
def avifplugin_set_tiles_u32 (FrameWidth FrameHeight : Nat) (encoder : avifEncoder) :
    Option avifEncoder := do
  let MiCols := (2 * (((FrameWidth + 7) % 2 ^ 32) >>> 3)) % 2 ^ 32
  let MiRows := (2 * (((FrameHeight + 7) % 2 ^ 32) >>> 3)) % 2 ^ 32
  let sbCols := ((MiCols + 31) % 2 ^ 32) >>> 5
  let sbRows := ((MiRows + 31) % 2 ^ 32) >>> 5
  let sbShift := 5
  let sbSize := sbShift + 2
  let maxTileWidthSb := MAX_TILE_WIDTH >>> sbSize
  let maxTileAreaSb := MAX_TILE_AREA >>> (2 * sbSize)
  let minLog2TileCols ← tile_log2_u32 maxTileWidthSb sbCols
  let maxLog2TileCols ← tile_log2_u32 1 (Min sbCols MAX_TILE_COLS)
  let maxLog2TileRows ← tile_log2_u32 1 (Min sbRows MAX_TILE_ROWS)
  let areaLog2 ← tile_log2_u32 maxTileAreaSb ((sbRows * sbCols) % 2 ^ 32)
  let minLog2Tiles := Max minLog2TileCols areaLog2
  let encoder : avifEncoder := ⟨minLog2TileCols, encoder.tileRowsLog2⟩
  let encoder : avifEncoder := ⟨encoder.tileColsLog2, 0⟩
  if minLog2Tiles > minLog2TileCols then
    let Log2Tiles_needed := minLog2Tiles - minLog2TileCols
    let tile_width := FrameWidth >>> minLog2TileCols
    pure (avifplugin_set_tiles_recursive tile_width FrameHeight Log2Tiles_needed
      maxLog2TileCols maxLog2TileRows encoder)
  else
    pure encoder

/-- Local `sbCols` (and, applied to the height, `sbRows`) of `avifplugin_set_tiles` in
`unsigned int` arithmetic. -/
def sbCount_u32 (frame : Nat) : Nat :=
  (((2 * (((frame + 7) % 2 ^ 32) >>> 3)) % 2 ^ 32 + 31) % 2 ^ 32) >>> 5

/-- Local `minLog2TileCols` of `avifplugin_set_tiles` in `unsigned int` arithmetic. -/
def minLog2TileCols_u32 (FrameWidth : Nat) : Option Nat :=
  tile_log2_u32 (MAX_TILE_WIDTH >>> 7) (sbCount_u32 FrameWidth)

/-- Local `maxLog2TileCols` of `avifplugin_set_tiles` in `unsigned int` arithmetic;
applied to the height and with `MAX_TILE_ROWS` it is `maxLog2TileRows`. -/
def maxLog2Tile_u32 (frame cap : Nat) : Option Nat :=
  tile_log2_u32 1 (Min (sbCount_u32 frame) cap)

/-- Local `minLog2Tiles` of `avifplugin_set_tiles` in `unsigned int` arithmetic. -/
def minLog2Tiles_u32 (FrameWidth FrameHeight : Nat) : Option Nat := do
  let a ← minLog2TileCols_u32 FrameWidth
  let b ← tile_log2_u32 (MAX_TILE_AREA >>> 14)
    ((sbCount_u32 FrameHeight * sbCount_u32 FrameWidth) % 2 ^ 32)
  pure (Max a b)

/-! ## Quantizer clamping in `save_layer` -/

/-- Lines 774-790 of `save_layer`: the values of `max_quantizer` and `min_quantizer`
after clamping, in this order; they are then stored in `encoder->maxQuantizer` and
`encoder->minQuantizer`.  The two constants `AVIF_QUANTIZER_BEST_QUALITY` and
`AVIF_QUANTIZER_WORST_QUALITY` come from the libavif header and are parameters. -/
def clamp_quantizers (AVIF_QUANTIZER_BEST_QUALITY AVIF_QUANTIZER_WORST_QUALITY : Int)
    (max_quantizer min_quantizer : Int) : Int × Int :=
  let max_quantizer :=
    if max_quantizer > AVIF_QUANTIZER_WORST_QUALITY then AVIF_QUANTIZER_WORST_QUALITY
    else if max_quantizer < AVIF_QUANTIZER_BEST_QUALITY then AVIF_QUANTIZER_BEST_QUALITY
    else max_quantizer
  let min_quantizer :=
    if min_quantizer > max_quantizer then max_quantizer
    else if min_quantizer < AVIF_QUANTIZER_BEST_QUALITY then AVIF_QUANTIZER_BEST_QUALITY
    else min_quantizer
  (max_quantizer, min_quantizer)

/-! ## Preparing the RGB image in `save_layer` -/

inductive avifRGBFormat where
  | AVIF_RGB_FORMAT_RGB
  | AVIF_RGB_FORMAT_RGBA
deriving DecidableEq

/-- The fields of `avifRGBImage` that `save_layer` sets.  `pixels` is the buffer seen
as samples (`uint8_t` for depth 8, `uint16_t` for depth 16); a cell that was allocated
and never written is `none`. -/
structure avifRGBImage where
  width : Nat
  height : Nat
  depth : Nat
  format : avifRGBFormat
  rowBytes : Nat
  pixels : List (Option Nat)
deriving DecidableEq

/-- The moving pointers of a gray expansion loop, as sample offsets from the start of
their buffers, and the contents of the destination buffer. -/
structure GrayCursor where
  graypixels_src : Nat
  graypixels_dest : Nat
  dest : List (Option Nat)
deriving DecidableEq

/-- Statements `tmpval = *graypixels_src; graypixels_src++;`.  A read past the end of
the source buffer has no result. -/
def read_src (pixels : List Nat) (c : GrayCursor) : Option (Nat × GrayCursor) :=
  match pixels[c.graypixels_src]? with
  | some tmpval => some (tmpval, ⟨c.graypixels_src + 1, c.graypixels_dest, c.dest⟩)
  | none => none

/-- Statements `*graypixels_dest = tmpval; graypixels_dest++;`.  A write past the end
of the destination buffer has no result. -/
def write_dest (tmpval : Nat) (c : GrayCursor) : Option GrayCursor :=
  if c.graypixels_dest < c.dest.length then
    some ⟨c.graypixels_src, c.graypixels_dest + 1, c.dest.set c.graypixels_dest (some tmpval)⟩
  else none

/-- Body of the inner loop of the gray expansion with alpha (source lines 628-641 and
686-699). -/
def gray_alpha_pixel (pixels : List Nat) (c : GrayCursor) : Option GrayCursor := do
  let (tmpval, c) ← read_src pixels c
  let c ← write_dest tmpval c
  let c ← write_dest tmpval c
  let c ← write_dest tmpval c
  let (tmpval, c) ← read_src pixels c
  write_dest tmpval c

/-- Body of the inner loop of the gray expansion without alpha (source lines 656-664
and 714-722). -/
def gray_pixel (pixels : List Nat) (c : GrayCursor) : Option GrayCursor := do
  let (tmpval, c) ← read_src pixels c
  let c ← write_dest tmpval c
  let c ← write_dest tmpval c
  write_dest tmpval c

/-- A counting loop `for (i = 0; i < n; ++i) body`. -/
def for_loop (n : Nat) (body : GrayCursor → Option GrayCursor) (c : GrayCursor) :
    Option GrayCursor :=
  match n with
  | 0 => some c
  | m + 1 => (body c).bind (for_loop m body)

/-- Buffer returned by `g_malloc_n (n_blocks, n_block_bytes)`, seen as samples of
`sampleBytes` bytes each; nothing has been written to it.  The size is the product of
the two arguments in `gsize`, which `g_malloc_n` itself checks for overflow, so the
buffer returned has exactly that many bytes. -/
def g_malloc_n (n_blocks n_block_bytes sampleBytes : Nat) : List (Option Nat) :=
  List.replicate (n_blocks * n_block_bytes / sampleBytes) none

/-- Lines 604-765 of `save_layer`, with each product `rgb.width * k` taken over the
natural numbers (the `uint32_t` product of the code is in `save_layer_rgb_u32`; the two
agree as long as the product is below `2^32`): the `avifRGBImage` passed to
`avifImageRGBToYUV`.  `usesU16` is the value of `avifImageUsesU16 (avif)`, `pixels` the samples fetched from
the drawable, and `avif->width`, `avif->height` are the drawable size given to
`avifImageCreate`. -/
def save_layer_rgb (is_gray save_alpha usesU16 : Bool) (drawable_width drawable_height : Nat)
    (pixels : List Nat) : Option avifRGBImage :=
  let width := drawable_width
  let height := drawable_height
  if is_gray then
    if usesU16 then
      if save_alpha then
        let rowBytes := width * 8
        let dest := g_malloc_n height rowBytes 2
        (for_loop drawable_height (for_loop drawable_width (gray_alpha_pixel pixels))
          ⟨0, 0, dest⟩).map
          fun c => ⟨width, height, 16, avifRGBFormat.AVIF_RGB_FORMAT_RGBA, rowBytes, c.dest⟩
      else
        let rowBytes := width * 6
        let dest := g_malloc_n height rowBytes 2
        (for_loop drawable_height (for_loop drawable_width (gray_pixel pixels))
          ⟨0, 0, dest⟩).map
          fun c => ⟨width, height, 16, avifRGBFormat.AVIF_RGB_FORMAT_RGB, rowBytes, c.dest⟩
    else
      if save_alpha then
        let rowBytes := width * 4
        let dest := g_malloc_n height rowBytes 1
        (for_loop drawable_height (for_loop drawable_width (gray_alpha_pixel pixels))
          ⟨0, 0, dest⟩).map
          fun c => ⟨width, height, 8, avifRGBFormat.AVIF_RGB_FORMAT_RGBA, rowBytes, c.dest⟩
      else
        let rowBytes := width * 3
        let dest := g_malloc_n height rowBytes 1
        (for_loop drawable_height (for_loop drawable_width (gray_pixel pixels))
          ⟨0, 0, dest⟩).map
          fun c => ⟨width, height, 8, avifRGBFormat.AVIF_RGB_FORMAT_RGB, rowBytes, c.dest⟩
  else
    let rgbpixels := pixels.map some
    if usesU16 then
      if save_alpha then
        some ⟨width, height, 16, avifRGBFormat.AVIF_RGB_FORMAT_RGBA, width * 8, rgbpixels⟩
      else
        some ⟨width, height, 16, avifRGBFormat.AVIF_RGB_FORMAT_RGB, width * 6, rgbpixels⟩
    else
      if save_alpha then
        some ⟨width, height, 8, avifRGBFormat.AVIF_RGB_FORMAT_RGBA, width * 4, rgbpixels⟩
      else
        some ⟨width, height, 8, avifRGBFormat.AVIF_RGB_FORMAT_RGB, width * 3, rgbpixels⟩

/-- Lines 604-765 of `save_layer` with `rgb.rowBytes` computed as in the code:
`rgb.width` and `rgb.rowBytes` are `uint32_t`, so each product `rgb.width * k` is
reduced modulo `2^32`.  The destination is the buffer of `rgb.height * rgb.rowBytes`
bytes that `g_malloc_n` returns; a write past its end, like a read past the end of the
source, has no result. -/
def save_layer_rgb_u32 (is_gray save_alpha usesU16 : Bool)
    (drawable_width drawable_height : Nat) (pixels : List Nat) : Option avifRGBImage :=
  let width := drawable_width
  let height := drawable_height
  if is_gray then
    if usesU16 then
      if save_alpha then
        let rowBytes := (width * 8) % 2 ^ 32
        let dest := g_malloc_n height rowBytes 2
        (for_loop drawable_height (for_loop drawable_width (gray_alpha_pixel pixels))
          ⟨0, 0, dest⟩).map
          fun c => ⟨width, height, 16, avifRGBFormat.AVIF_RGB_FORMAT_RGBA, rowBytes, c.dest⟩
      else
        let rowBytes := (width * 6) % 2 ^ 32
        let dest := g_malloc_n height rowBytes 2
        (for_loop drawable_height (for_loop drawable_width (gray_pixel pixels))
          ⟨0, 0, dest⟩).map
          fun c => ⟨width, height, 16, avifRGBFormat.AVIF_RGB_FORMAT_RGB, rowBytes, c.dest⟩
    else
      if save_alpha then
        let rowBytes := (width * 4) % 2 ^ 32
        let dest := g_malloc_n height rowBytes 1
        (for_loop drawable_height (for_loop drawable_width (gray_alpha_pixel pixels))
          ⟨0, 0, dest⟩).map
          fun c => ⟨width, height, 8, avifRGBFormat.AVIF_RGB_FORMAT_RGBA, rowBytes, c.dest⟩
      else
        let rowBytes := (width * 3) % 2 ^ 32
        let dest := g_malloc_n height rowBytes 1
        (for_loop drawable_height (for_loop drawable_width (gray_pixel pixels))
          ⟨0, 0, dest⟩).map
          fun c => ⟨width, height, 8, avifRGBFormat.AVIF_RGB_FORMAT_RGB, rowBytes, c.dest⟩
  else
    let rgbpixels := pixels.map some
    if usesU16 then
      if save_alpha then
        some ⟨width, height, 16, avifRGBFormat.AVIF_RGB_FORMAT_RGBA, (width * 8) % 2 ^ 32,
          rgbpixels⟩
      else
        some ⟨width, height, 16, avifRGBFormat.AVIF_RGB_FORMAT_RGB, (width * 6) % 2 ^ 32,
          rgbpixels⟩
    else
      if save_alpha then
        some ⟨width, height, 8, avifRGBFormat.AVIF_RGB_FORMAT_RGBA, (width * 4) % 2 ^ 32,
          rgbpixels⟩
      else
        some ⟨width, height, 8, avifRGBFormat.AVIF_RGB_FORMAT_RGB, (width * 3) % 2 ^ 32,
          rgbpixels⟩

/-- The value that `save_layer` assigns to `rgb.rowBytes`, a `uint32_t`, in the branch
for the given alpha and depth (the gray and the colour branch assign the same
product). -/
def rgb_rowBytes_u32 (save_alpha usesU16 : Bool) (width : Nat) : Nat :=
  if usesU16 then
    if save_alpha then (width * 8) % 2 ^ 32 else (width * 6) % 2 ^ 32
  else
    if save_alpha then (width * 4) % 2 ^ 32 else (width * 3) % 2 ^ 32

/-! The loop invariants of the gray expansion, used in the proofs below. -/

/-- State of the expansion without alpha after `k` pixels: the source pointer has
advanced by `k`, the destination pointer by `3 * k`, the destination still has its `N`
cells, and each cell `i` below `3 * k` holds source sample `i / 3`. -/
def GrayInv (pixels : List Nat) (N k : Nat) (c : GrayCursor) : Prop :=
  c.graypixels_src = k ∧ c.graypixels_dest = 3 * k ∧ c.dest.length = N ∧
    ∀ i, i < 3 * k → c.dest[i]? = some pixels[i / 3]?

/-- State of the expansion with alpha after `k` pixels: the source pointer has advanced
by `2 * k`, the destination pointer by `4 * k`, the destination still has its `N` cells,
and each cell `i` below `4 * k` holds the gray sample `2 * (i / 4)` of its pixel, or the
alpha sample `2 * (i / 4) + 1` when it is the fourth cell of the pixel. -/
def GrayAlphaInv (pixels : List Nat) (N k : Nat) (c : GrayCursor) : Prop :=
  c.graypixels_src = 2 * k ∧ c.graypixels_dest = 4 * k ∧ c.dest.length = N ∧
    ∀ i, i < 4 * k →
      c.dest[i]? = some pixels[if i % 4 = 3 then 2 * (i / 4) + 1 else 2 * (i / 4)]?

/-! ## The gray expansion with a record of its memory accesses -/

/-- A cursor of a gray expansion loop together with the source offsets read and the
destination offsets written so far, oldest first. -/
structure GrayTrace where
  cursor : GrayCursor
  reads : List Nat
  writes : List Nat
deriving DecidableEq

/-- Statements `tmpval = *graypixels_src; graypixels_src++;`, recording the offset
read. -/
def read_src_traced (pixels : List Nat) (t : GrayTrace) : Option (Nat × GrayTrace) :=
  match read_src pixels t.cursor with
  | some (tmpval, c) => some (tmpval, ⟨c, t.reads ++ [t.cursor.graypixels_src], t.writes⟩)
  | none => none

/-- Statements `*graypixels_dest = tmpval; graypixels_dest++;`, recording the offset
written. -/
def write_dest_traced (tmpval : Nat) (t : GrayTrace) : Option GrayTrace :=
  match write_dest tmpval t.cursor with
  | some c => some ⟨c, t.reads, t.writes ++ [t.cursor.graypixels_dest]⟩
  | none => none

/-- Body of the inner loop of the gray expansion with alpha, recording its accesses. -/
def gray_alpha_pixel_traced (pixels : List Nat) (t : GrayTrace) : Option GrayTrace := do
  let (tmpval, t) ← read_src_traced pixels t
  let t ← write_dest_traced tmpval t
  let t ← write_dest_traced tmpval t
  let t ← write_dest_traced tmpval t
  let (tmpval, t) ← read_src_traced pixels t
  write_dest_traced tmpval t

/-- Body of the inner loop of the gray expansion without alpha, recording its
accesses. -/
def gray_pixel_traced (pixels : List Nat) (t : GrayTrace) : Option GrayTrace := do
  let (tmpval, t) ← read_src_traced pixels t
  let t ← write_dest_traced tmpval t
  let t ← write_dest_traced tmpval t
  write_dest_traced tmpval t

/-- A counting loop `for (i = 0; i < n; ++i) body` over traced states. -/
def for_loop_traced (n : Nat) (body : GrayTrace → Option GrayTrace) (t : GrayTrace) :
    Option GrayTrace :=
  match n with
  | 0 => some t
  | m + 1 => (body t).bind (for_loop_traced m body)

/-- Size in bytes of the buffer `pixels` that `save_layer` allocates with `g_new` for
a gray drawable (source lines 375, 387, 404 and 416); the 8-bit sizes are those of
`savedepth == 8`, for which `avifImageUsesU16` is false.  The size is the `gint`
expression `drawable_width * drawable_height * k`; a product above `INT_MAX = 2^31 - 1`
overflows, which C leaves undefined, and has no result (the product of the first two
factors is no larger than the whole). -/
def gray_pixels_bytes (save_alpha usesU16 : Bool) (drawable_width drawable_height : Nat) :
    Option Nat :=
  if save_alpha then
    if usesU16 then
      if drawable_width * drawable_height * 4 ≤ 2 ^ 31 - 1 then
        some (drawable_width * drawable_height * 4) else none
    else
      if drawable_width * drawable_height * 2 ≤ 2 ^ 31 - 1 then
        some (drawable_width * drawable_height * 2) else none
  else
    if usesU16 then
      if drawable_width * drawable_height * 2 ≤ 2 ^ 31 - 1 then
        some (drawable_width * drawable_height * 2) else none
    else
      if drawable_width * drawable_height ≤ 2 ^ 31 - 1 then
        some (drawable_width * drawable_height) else none

/-- The four gray expansion loops of `save_layer` (source lines 617-725), each run on
its freshly allocated destination, with the record of the accesses made.  As in
`save_layer_rgb_u32`, `rgb.rowBytes` is the `uint32_t` product reduced modulo `2^32`. -/
def save_layer_gray_traced (save_alpha usesU16 : Bool) (drawable_width drawable_height : Nat)
    (pixels : List Nat) : Option GrayTrace :=
  let width := drawable_width
  let height := drawable_height
  if usesU16 then
    if save_alpha then
      let rowBytes := (width * 8) % 2 ^ 32
      for_loop_traced drawable_height
        (for_loop_traced drawable_width (gray_alpha_pixel_traced pixels))
        ⟨⟨0, 0, g_malloc_n height rowBytes 2⟩, [], []⟩
    else
      let rowBytes := (width * 6) % 2 ^ 32
      for_loop_traced drawable_height
        (for_loop_traced drawable_width (gray_pixel_traced pixels))
        ⟨⟨0, 0, g_malloc_n height rowBytes 2⟩, [], []⟩
  else
    if save_alpha then
      let rowBytes := (width * 4) % 2 ^ 32
      for_loop_traced drawable_height
        (for_loop_traced drawable_width (gray_alpha_pixel_traced pixels))
        ⟨⟨0, 0, g_malloc_n height rowBytes 1⟩, [], []⟩
    else
      let rowBytes := (width * 3) % 2 ^ 32
      for_loop_traced drawable_height
        (for_loop_traced drawable_width (gray_pixel_traced pixels))
        ⟨⟨0, 0, g_malloc_n height rowBytes 1⟩, [], []⟩

/-- State of the traced expansion without alpha after `k` pixels: the pointers have
advanced by `k` and `3 * k`, the destination has its `N` cells, the offsets read are
`0, ..., k - 1` in this order and the offsets written are `0, ..., 3 * k - 1` in this
order. -/
def GrayTraceInv (N k : Nat) (t : GrayTrace) : Prop :=
  t.cursor.graypixels_src = k ∧ t.cursor.graypixels_dest = 3 * k ∧
    t.cursor.dest.length = N ∧ t.reads = List.range k ∧ t.writes = List.range (3 * k)

/-- State of the traced expansion with alpha after `k` pixels: the pointers have
advanced by `2 * k` and `4 * k`, the destination has its `N` cells, the offsets read
are `0, ..., 2 * k - 1` in this order and the offsets written are `0, ..., 4 * k - 1`
in this order. -/
def GrayAlphaTraceInv (N k : Nat) (t : GrayTrace) : Prop :=
  t.cursor.graypixels_src = 2 * k ∧ t.cursor.graypixels_dest = 4 * k ∧
    t.cursor.dest.length = N ∧ t.reads = List.range (2 * k) ∧
    t.writes = List.range (4 * k)

/-! ## Facts about `tile_log2` -/

theorem lt_shiftLeft_self (b t : Nat) (hb : 0 < b) : t < b <<< t := by
  rw [Nat.shiftLeft_eq]
  calc t < 2 ^ t := Nat.lt_two_pow t
    _ = 1 * 2 ^ t := (Nat.one_mul _).symm
    _ ≤ b * 2 ^ t := Nat.mul_le_mul_right _ hb

theorem shiftLeft_mono (b : Nat) {j k : Nat} (h : j ≤ k) : b <<< j ≤ b <<< k := by
  rw [Nat.shiftLeft_eq, Nat.shiftLeft_eq]
  exact Nat.mul_le_mul_left _ (Nat.pow_le_pow_right (by decide) h)

/-- Whatever the loop returns is the first counter at which the condition fails. -/
theorem tile_log2_loop_result (b t : Nat) :
    ∀ (fuel k r : Nat), tile_log2_loop b t fuel k = some r → (∀ j, j < k → b <<< j < t) →
      t ≤ b <<< r ∧ ∀ j, j < r → b <<< j < t := by
  intro fuel
  induction fuel with
  | zero => intro k r h _; simp [tile_log2_loop] at h
  | succ f ih =>
    intro k r h hk
    unfold tile_log2_loop at h
    by_cases hc : b <<< k < t
    · rw [if_pos hc] at h
      refine ih (k + 1) r h ?_
      intro j hj
      rcases Nat.lt_succ_iff_lt_or_eq.mp hj with h1 | h1
      · exact hk j h1
      · rw [h1]; exact hc
    · rw [if_neg hc] at h
      cases h
      exact ⟨Nat.le_of_not_lt hc, hk⟩

/-- With a positive block size the loop ends within its budget. -/
theorem tile_log2_loop_total (b t : Nat) (hb : 0 < b) :
    ∀ (fuel k : Nat), t + 1 ≤ fuel + k → (∀ j, j < k → b <<< j < t) →
      ∃ r, tile_log2_loop b t fuel k = some r := by
  intro fuel
  induction fuel with
  | zero =>
    intro k hf hk
    have h1 : b <<< t < t := hk t (by omega)
    have h2 := lt_shiftLeft_self b t hb
    omega
  | succ f ih =>
    intro k hf hk
    unfold tile_log2_loop
    by_cases hc : b <<< k < t
    · rw [if_pos hc]
      refine ih (k + 1) (by omega) ?_
      intro j hj
      rcases Nat.lt_succ_iff_lt_or_eq.mp hj with h1 | h1
      · exact hk j h1
      · rw [h1]; exact hc
    · rw [if_neg hc]
      exact ⟨k, rfl⟩

theorem tile_log2_result {b t k : Nat} (h : tile_log2 b t = some k) :
    t ≤ b <<< k ∧ ∀ j, j < k → b <<< j < t :=
  tile_log2_loop_result b t (t + 1) 0 k h (fun j hj => absurd hj (Nat.not_lt_zero j))

theorem tile_log2_total (b t : Nat) (hb : 0 < b) : ∃ k, tile_log2 b t = some k :=
  tile_log2_loop_total b t hb (t + 1) 0 (by omega) (fun j hj => absurd hj (Nat.not_lt_zero j))

/-- The result is at most `m` exactly when `m` shifts already reach the target. -/
theorem tile_log2_le_iff {b t k : Nat} (h : tile_log2 b t = some k) (m : Nat) :
    k ≤ m ↔ t ≤ b <<< m := by
  obtain ⟨h1, h2⟩ := tile_log2_result h
  constructor
  · intro hkm
    exact Nat.le_trans h1 (shiftLeft_mono b hkm)
  · intro htm
    by_contra hlt
    have := h2 m (by omega)
    omega

theorem tile_log2_eq_zero_iff {b t k : Nat} (h : tile_log2 b t = some k) :
    k = 0 ↔ t ≤ b := by
  have := tile_log2_le_iff h 0
  simp only [Nat.shiftLeft_zero] at this
  omega

theorem tile_log2_mono {b t1 t2 k1 k2 : Nat} (h1 : tile_log2 b t1 = some k1)
    (h2 : tile_log2 b t2 = some k2) (ht : t1 ≤ t2) : k1 ≤ k2 :=
  (tile_log2_le_iff h1 k2).mpr (Nat.le_trans ht (tile_log2_result h2).1)

/-! ## Unfolding `avifplugin_set_tiles` -/

/-- The two-stage unit conversion is a ceiling division by 128. -/
theorem sbCount_eq (n : Nat) : sbCount n = (n + 127) / 128 := by
  unfold sbCount
  simp only [Nat.shiftRight_eq_div_pow]
  omega

theorem sbCount_mono {m n : Nat} (h : m ≤ n) : sbCount m ≤ sbCount n := by
  rw [sbCount_eq, sbCount_eq]
  exact Nat.div_le_div_right (by omega)

theorem sbCount_pos {n : Nat} (h : 0 < n) : 0 < sbCount n := by
  rw [sbCount_eq]
  omega

/-- Once the four calls of `tile_log2` have returned, `avifplugin_set_tiles` is one run
of the recursive splitter from the grid `(minLog2TileCols, 0)`. -/
theorem set_tiles_of_locals {W H a mc mr b : Nat} (e : avifEncoder)
    (ha : minLog2TileCols W = some a)
    (hmc : maxLog2Tile W MAX_TILE_COLS = some mc)
    (hmr : maxLog2Tile H MAX_TILE_ROWS = some mr)
    (hb : tile_log2 (MAX_TILE_AREA >>> 14) (sbCount H * sbCount W) = some b) :
    avifplugin_set_tiles W H e =
      some (avifplugin_set_tiles_recursive (W >>> a) H (Max a b - a) mc mr ⟨a, 0⟩) := by
  have ha' : tile_log2 (MAX_TILE_WIDTH >>> (5 + 2)) (((2 * ((W + 7) >>> 3)) + 31) >>> 5)
      = some a := ha
  have hmc' : tile_log2 1 (Min (((2 * ((W + 7) >>> 3)) + 31) >>> 5) MAX_TILE_COLS)
      = some mc := hmc
  have hmr' : tile_log2 1 (Min (((2 * ((H + 7) >>> 3)) + 31) >>> 5) MAX_TILE_ROWS)
      = some mr := hmr
  have hb' : tile_log2 (MAX_TILE_AREA >>> (2 * (5 + 2)))
      ((((2 * ((H + 7) >>> 3)) + 31) >>> 5) * (((2 * ((W + 7) >>> 3)) + 31) >>> 5))
      = some b := hb
  simp only [avifplugin_set_tiles, ha', hmc', hmr', hb', Option.bind_eq_bind,
    Option.some_bind, Option.pure_def]
  by_cases hgt : Max a b > a
  · rw [if_pos hgt]
  · rw [if_neg hgt]
    have : Max a b - a = 0 := by omega
    rw [this]
    simp [avifplugin_set_tiles_recursive]

/-- All four calls of `tile_log2` in `avifplugin_set_tiles` return. -/
theorem set_tiles_locals (W H : Nat) :
    ∃ a mc mr b, minLog2TileCols W = some a ∧ maxLog2Tile W MAX_TILE_COLS = some mc ∧
      maxLog2Tile H MAX_TILE_ROWS = some mr ∧
      tile_log2 (MAX_TILE_AREA >>> 14) (sbCount H * sbCount W) = some b := by
  obtain ⟨a, ha⟩ := tile_log2_total (MAX_TILE_WIDTH >>> 7) (sbCount W) (by decide)
  obtain ⟨mc, hmc⟩ := tile_log2_total 1 (Min (sbCount W) MAX_TILE_COLS) (by decide)
  obtain ⟨mr, hmr⟩ := tile_log2_total 1 (Min (sbCount H) MAX_TILE_ROWS) (by decide)
  obtain ⟨b, hb⟩ := tile_log2_total (MAX_TILE_AREA >>> 14) (sbCount H * sbCount W) (by decide)
  exact ⟨a, mc, mr, b, ha, hmc, hmr, hb⟩

theorem minLog2Tiles_of_locals {W H a b : Nat} (ha : minLog2TileCols W = some a)
    (hb : tile_log2 (MAX_TILE_AREA >>> 14) (sbCount H * sbCount W) = some b) :
    minLog2Tiles W H = some (Max a b) := by
  simp [minLog2Tiles, ha, hb]

/-! ## Facts about `avifplugin_set_tiles_recursive` -/

/-- No split is ever undone. -/
theorem recursive_ge (mc mr : Nat) : ∀ (n w h : Nat) (e : avifEncoder),
    e.tileColsLog2 ≤ (avifplugin_set_tiles_recursive w h n mc mr e).tileColsLog2 ∧
    e.tileRowsLog2 ≤ (avifplugin_set_tiles_recursive w h n mc mr e).tileRowsLog2 := by
  intro n
  induction n with
  | zero => intro w h e; simp [avifplugin_set_tiles_recursive]
  | succ n ih =>
    intro w h e
    unfold avifplugin_set_tiles_recursive
    split_ifs
    all_goals first
      | exact ⟨Nat.le_refl _, Nat.le_refl _⟩
      | (have hstep := ih (w >>> 1) h ⟨e.tileColsLog2 + 1, e.tileRowsLog2⟩
         simp only at hstep
         omega)
      | (have hstep := ih w (h >>> 1) ⟨e.tileColsLog2, e.tileRowsLog2 + 1⟩
         simp only at hstep
         omega)

/-- A count that starts within its cap stays within it; a count above its cap is left
alone. -/
theorem recursive_le (mc mr : Nat) : ∀ (n w h : Nat) (e : avifEncoder),
    (avifplugin_set_tiles_recursive w h n mc mr e).tileColsLog2 ≤ max e.tileColsLog2 mc ∧
    (avifplugin_set_tiles_recursive w h n mc mr e).tileRowsLog2 ≤ max e.tileRowsLog2 mr := by
  intro n
  induction n with
  | zero => intro w h e; simp [avifplugin_set_tiles_recursive]
  | succ n ih =>
    intro w h e
    unfold avifplugin_set_tiles_recursive
    split_ifs
    all_goals first
      | (simp only [le_max_iff]; omega)
      | (have hstep := ih (w >>> 1) h ⟨e.tileColsLog2 + 1, e.tileRowsLog2⟩
         simp only [le_max_iff] at hstep ⊢
         omega)
      | (have hstep := ih w (h >>> 1) ⟨e.tileColsLog2, e.tileRowsLog2 + 1⟩
         simp only [le_max_iff] at hstep ⊢
         omega)

/-- The number of splits made is the number asked for, capped by the room left under
the two caps. -/
theorem recursive_sum (mc mr : Nat) : ∀ (n w h : Nat) (e : avifEncoder),
    (avifplugin_set_tiles_recursive w h n mc mr e).tileColsLog2 +
    (avifplugin_set_tiles_recursive w h n mc mr e).tileRowsLog2 =
      e.tileColsLog2 + e.tileRowsLog2 +
        min n ((mc - e.tileColsLog2) + (mr - e.tileRowsLog2)) := by
  intro n
  induction n with
  | zero => intro w h e; simp [avifplugin_set_tiles_recursive]
  | succ n ih =>
    intro w h e
    unfold avifplugin_set_tiles_recursive
    split_ifs
    all_goals first
      | (simp only [Nat.min_def]; split_ifs <;> omega)
      | (have hstep := ih (w >>> 1) h ⟨e.tileColsLog2 + 1, e.tileRowsLog2⟩
         simp only [Nat.min_def] at hstep ⊢
         split_ifs at hstep ⊢ <;> omega)
      | (have hstep := ih w (h >>> 1) ⟨e.tileColsLog2, e.tileRowsLog2 + 1⟩
         simp only [Nat.min_def] at hstep ⊢
         split_ifs at hstep ⊢ <;> omega)

/-- Two runs of the splitter on the same height, the second on the wider frame and with
the larger column cap.  If the second run is at least as far along in total, no further
along in rows, and is asked to reach at least the same total, it ends with at least as
many column splits. -/
theorem recursive_cols_mono {W1 W2 H mc1 mc2 mr : Nat} (hW : W1 ≤ W2) (hmc : mc1 ≤ mc2) :
    ∀ (n1 n2 c1 r1 c2 r2 : Nat), c1 + r1 ≤ c2 + r2 → r2 ≤ r1 →
      c1 + r1 + n1 ≤ c2 + r2 + n2 →
      (avifplugin_set_tiles_recursive (W1 >>> c1) (H >>> r1) n1 mc1 mr ⟨c1, r1⟩).tileColsLog2 ≤
      (avifplugin_set_tiles_recursive (W2 >>> c2) (H >>> r2) n2 mc2 mr ⟨c2, r2⟩).tileColsLog2 := by
  intro n1
  induction n1 with
  | zero =>
    intro n2 c1 r1 c2 r2 ht hr _
    have hge2 := (recursive_ge mc2 mr n2 (W2 >>> c2) (H >>> r2) ⟨c2, r2⟩).1
    simp only [avifplugin_set_tiles_recursive] at hge2 ⊢
    omega
  | succ n1 ih =>
    intro n2 c1 r1 c2 r2 ht hr hn
    have hlec := (recursive_le mc1 mr n1 ((W1 >>> c1) >>> 1) (H >>> r1) ⟨c1 + 1, r1⟩).1
    have hler := (recursive_le mc1 mr n1 (W1 >>> c1) ((H >>> r1) >>> 1) ⟨c1, r1 + 1⟩).1
    simp only [le_max_iff] at hlec hler
    by_cases hlt : c1 + r1 < c2 + r2
    · -- the first run is behind in total: it moves alone
      have hge2 := (recursive_ge mc2 mr n2 (W2 >>> c2) (H >>> r2) ⟨c2, r2⟩).1
      have ihc := ih n2 (c1 + 1) r1 c2 r2 (by omega) hr (by omega)
      have ihr := ih n2 c1 (r1 + 1) c2 r2 (by omega) (by omega) (by omega)
      simp only [Nat.shiftRight_add] at ihc ihr
      simp only at hge2
      rw [avifplugin_set_tiles_recursive]
      simp only
      split_ifs
      all_goals first
        | exact ihc
        | exact ihr
        | omega
        | (simp only; omega)
    · -- equal totals: both runs move
      obtain ⟨m2, rfl⟩ : ∃ m2, n2 = m2 + 1 := ⟨n2 - 1, by omega⟩
      have hw : c1 = c2 → W1 >>> c1 ≤ W2 >>> c2 := by
        intro h
        rw [h, Nat.shiftRight_eq_div_pow, Nat.shiftRight_eq_div_pow]
        exact Nat.div_le_div_right hW
      have hh : r1 = r2 → H >>> r1 = H >>> r2 := by
        intro h
        rw [h]
      have hge2c := (recursive_ge mc2 mr m2 ((W2 >>> c2) >>> 1) (H >>> r2) ⟨c2 + 1, r2⟩).1
      have hge2r := (recursive_ge mc2 mr m2 (W2 >>> c2) ((H >>> r2) >>> 1) ⟨c2, r2 + 1⟩).1
      have icc := ih m2 (c1 + 1) r1 (c2 + 1) r2 (by omega) hr (by omega)
      have irc := ih m2 c1 (r1 + 1) (c2 + 1) r2 (by omega) (by omega) (by omega)
      have irr := ih m2 c1 (r1 + 1) c2 (r2 + 1) (by omega) (by omega) (by omega)
      have icr : r2 < r1 →
          (avifplugin_set_tiles_recursive (W1 >>> (c1 + 1)) (H >>> r1) n1 mc1 mr
            ⟨c1 + 1, r1⟩).tileColsLog2 ≤
          (avifplugin_set_tiles_recursive (W2 >>> c2) (H >>> (r2 + 1)) m2 mc2 mr
            ⟨c2, r2 + 1⟩).tileColsLog2 :=
        fun h => ih m2 (c1 + 1) r1 c2 (r2 + 1) (by omega) (by omega) (by omega)
      simp only [Nat.shiftRight_add] at icc irc irr icr
      simp only at hge2c hge2r
      rw [avifplugin_set_tiles_recursive, avifplugin_set_tiles_recursive]
      simp only
      split_ifs
      all_goals first
        | exact icc
        | exact irc
        | exact irr
        | exact icr (by omega)
        | omega
        | (simp only; omega)

/-! ## Bounds on the caps -/

/-- A cap computed by `tile_log2 1 (Min s 64)` leaves at most a factor `q` between the
count `s` and the number of tiles, as long as `s ≤ 64 * q`. -/
theorem cap_reaches {s q m : Nat} (hq : 0 < q) (hs : s ≤ 64 * q)
    (hm : tile_log2 1 (Min s 64) = some m) : s ≤ q * 2 ^ m := by
  have h1 := (tile_log2_result hm).1
  rw [Nat.shiftLeft_eq, Nat.one_mul] at h1
  have h2 : 2 ^ m ≤ q * 2 ^ m := Nat.le_mul_of_pos_left _ hq
  unfold Min at h1
  split_ifs at h1 with hlt
  · omega
  · have : 64 * q ≤ q * 2 ^ m := by
      rw [Nat.mul_comm 64 q]
      exact Nat.mul_le_mul_left q h1
    omega

theorem Min_mono {a b c : Nat} (h : a ≤ b) : Min a c ≤ Min b c := by
  unfold Min
  split_ifs <;> omega

theorem Max_mono {a b c d : Nat} (h1 : a ≤ c) (h2 : b ≤ d) : Max a b ≤ Max c d := by
  unfold Max
  split_ifs <;> omega

theorem le_Max (a b : Nat) : a ≤ Max a b ∧ b ≤ Max a b := by
  unfold Max
  split_ifs <;> omega

/-- For frames up to 262144 pixels wide the column count that the tile width asks for
is within the column cap. -/
theorem minCols_le_maxCols {W a mc : Nat} (hW : W ≤ 262144)
    (ha : minLog2TileCols W = some a) (hmc : maxLog2Tile W MAX_TILE_COLS = some mc) :
    a ≤ mc := by
  have hs : sbCount W ≤ 64 * 32 := by rw [sbCount_eq]; omega
  have h := cap_reaches (by decide) hs hmc
  refine (tile_log2_le_iff ha mc).mpr ?_
  rw [Nat.shiftLeft_eq]
  exact h

/-- For frames up to 196608 x 196608 pixels the two caps together allow as many splits
as the tile area asks for. -/
theorem area_le_caps {W H mc mr b : Nat} (hW : W ≤ 196608) (hH : H ≤ 196608)
    (hmc : maxLog2Tile W MAX_TILE_COLS = some mc)
    (hmr : maxLog2Tile H MAX_TILE_ROWS = some mr)
    (hb : tile_log2 (MAX_TILE_AREA >>> 14) (sbCount H * sbCount W) = some b) :
    b ≤ mc + mr := by
  have hsc : sbCount W ≤ 64 * 24 := by rw [sbCount_eq]; omega
  have hsr : sbCount H ≤ 64 * 24 := by rw [sbCount_eq]; omega
  have h1 := cap_reaches (by decide) hsc hmc
  have h2 := cap_reaches (by decide) hsr hmr
  refine (tile_log2_le_iff hb (mc + mr)).mpr ?_
  rw [Nat.shiftLeft_eq, Nat.pow_add]
  calc sbCount H * sbCount W ≤ (24 * 2 ^ mr) * (24 * 2 ^ mc) := Nat.mul_le_mul h2 h1
    _ = MAX_TILE_AREA >>> 14 * (2 ^ mc * 2 ^ mr) := by
      have : MAX_TILE_AREA >>> 14 = 576 := by decide
      rw [this]
      ring

/-! ## The tile grid over the natural numbers, with claims C3 and C4 -/

/-- Over the natural numbers: `avifplugin_set_tiles` returns; `tileRowsLog2` is at most
`maxLog2TileRows`; `tileColsLog2` is at most the larger of `minLog2TileCols` and
`maxLog2TileCols`, hence at most `maxLog2TileCols` whenever
`minLog2TileCols ≤ maxLog2TileCols`, which is the case for every width up to 262144. -/
theorem set_tiles_within_caps_nat (W H : Nat) (e : avifEncoder) :
    ∃ enc a mc mr, avifplugin_set_tiles W H e = some enc ∧
      minLog2TileCols W = some a ∧
      maxLog2Tile W MAX_TILE_COLS = some mc ∧
      maxLog2Tile H MAX_TILE_ROWS = some mr ∧
      enc.tileRowsLog2 ≤ mr ∧
      enc.tileColsLog2 ≤ max a mc ∧
      (a ≤ mc → enc.tileColsLog2 ≤ mc) ∧
      (W ≤ 262144 → a ≤ mc) := by
  obtain ⟨a, mc, mr, b, ha, hmc, hmr, hb⟩ := set_tiles_locals W H
  have hle := recursive_le mc mr (Max a b - a) (W >>> a) H ⟨a, 0⟩
  simp only [le_max_iff] at hle
  refine ⟨_, a, mc, mr, set_tiles_of_locals e ha hmc hmr hb, ha, hmc, hmr, ?_, ?_, ?_, ?_⟩
  · omega
  · simp only [le_max_iff]; omega
  · intro h; omega
  · intro h; exact minCols_le_maxCols h ha hmc

/-- Over the natural numbers: the sum `tileColsLog2 + tileRowsLog2` reaches `minLog2Tiles`
exactly when `minLog2Tiles ≤ max minLog2TileCols maxLog2TileCols + maxLog2TileRows`;
reaching it is the same as `576 << (tileColsLog2 + tileRowsLog2) ≥ sbRows * sbCols`; and
the caps leave room for every frame up to 196608 x 196608 pixels. -/
theorem set_tiles_sum_reaches_min_nat (W H : Nat) (e : avifEncoder) :
    ∃ enc a mc mr m, avifplugin_set_tiles W H e = some enc ∧
      minLog2TileCols W = some a ∧
      maxLog2Tile W MAX_TILE_COLS = some mc ∧
      maxLog2Tile H MAX_TILE_ROWS = some mr ∧
      minLog2Tiles W H = some m ∧
      (m ≤ enc.tileColsLog2 + enc.tileRowsLog2 ↔ m ≤ max a mc + mr) ∧
      (m ≤ enc.tileColsLog2 + enc.tileRowsLog2 ↔
        sbCount H * sbCount W ≤ 576 <<< (enc.tileColsLog2 + enc.tileRowsLog2)) ∧
      (W ≤ 196608 → H ≤ 196608 → m ≤ enc.tileColsLog2 + enc.tileRowsLog2) := by
  obtain ⟨a, mc, mr, b, ha, hmc, hmr, hb⟩ := set_tiles_locals W H
  have hsum := recursive_sum mc mr (Max a b - a) (W >>> a) H ⟨a, 0⟩
  have hge := recursive_ge mc mr (Max a b - a) (W >>> a) H ⟨a, 0⟩
  have hM := le_Max a b
  have hMax : Max a b = a ∨ Max a b = b := by unfold Max; split_ifs <;> simp
  have hset := set_tiles_of_locals e ha hmc hmr hb
  simp only at hsum hge
  generalize avifplugin_set_tiles_recursive (W >>> a) H (Max a b - a) mc mr ⟨a, 0⟩ = enc
    at hsum hge hset
  have hroom : Max a b ≤ enc.tileColsLog2 + enc.tileRowsLog2 ↔ Max a b ≤ max a mc + mr := by
    rw [hsum]
    simp only [Nat.min_def, Nat.max_def]
    split_ifs <;> omega
  have harea : Max a b ≤ enc.tileColsLog2 + enc.tileRowsLog2 ↔
      sbCount H * sbCount W ≤ 576 <<< (enc.tileColsLog2 + enc.tileRowsLog2) := by
    have := tile_log2_le_iff hb (enc.tileColsLog2 + enc.tileRowsLog2)
    have h576 : MAX_TILE_AREA >>> 14 = 576 := by decide
    rw [h576] at this
    rw [← this]
    omega
  refine ⟨enc, a, mc, mr, Max a b, hset, ha, hmc, hmr, minLog2Tiles_of_locals ha hb,
    hroom, harea, ?_⟩
  · intro hW hH
    have h1 := area_le_caps hW hH hmc hmr hb
    refine hroom.mpr ?_
    simp only [Nat.max_def]
    split_ifs <;> omega

/-- C3, as stated, fails: with width equal to height, one split needed and both counts
below their caps, the split made is a row split; `avifplugin_set_tiles (4096, 4096)`
yields `tileColsLog2 = 0` and `tileRowsLog2 = 1`, not `(1, 0)`. -/
theorem tie_is_not_column_split :
    avifplugin_set_tiles_recursive 4096 4096 1 5 5 ⟨0, 0⟩ = ⟨0, 1⟩ ∧
    avifplugin_set_tiles 4096 4096 ⟨0, 0⟩ = some ⟨0, 1⟩ ∧
    avifplugin_set_tiles 4096 4096 ⟨0, 0⟩ ≠ some ⟨1, 0⟩ :=
  ⟨by decide, by decide, by decide⟩

/-- C3 (amended): in `avifplugin_set_tiles_recursive`, when at least one more split is
needed, the current width equals the current height and `tileRowsLog2` is below
`maxLog2TileRows` (in particular when both counts are below their caps), the next split
is a row split: the run continues with the height halved, `tileRowsLog2` incremented
and `tileColsLog2` unchanged, so the result has `tileRowsLog2` at least one higher, and
with exactly one split needed the result is that grid.  Accordingly
`avifplugin_set_tiles (4096, 4096)` yields `tileColsLog2 = 0` and `tileRowsLog2 = 1`. -/
theorem tie_splits_rows :
    (∀ (w needed mc mr : Nat) (e : avifEncoder), e.tileRowsLog2 < mr →
      avifplugin_set_tiles_recursive w w (needed + 1) mc mr e =
        avifplugin_set_tiles_recursive w (w >>> 1) needed mc mr
          ⟨e.tileColsLog2, e.tileRowsLog2 + 1⟩ ∧
      e.tileRowsLog2 + 1 ≤
        (avifplugin_set_tiles_recursive w w (needed + 1) mc mr e).tileRowsLog2 ∧
      avifplugin_set_tiles_recursive w w 1 mc mr e =
        ⟨e.tileColsLog2, e.tileRowsLog2 + 1⟩) ∧
    (∀ e : avifEncoder, avifplugin_set_tiles 4096 4096 e = some ⟨0, 1⟩) := by
  constructor
  · intro w needed mc mr e hr
    have h1 : avifplugin_set_tiles_recursive w w (needed + 1) mc mr e =
        avifplugin_set_tiles_recursive w (w >>> 1) needed mc mr
          ⟨e.tileColsLog2, e.tileRowsLog2 + 1⟩ := by
      rw [avifplugin_set_tiles_recursive, if_neg (Nat.lt_irrefl w), if_pos hr]
    refine ⟨h1, ?_, ?_⟩
    · rw [h1]
      exact (recursive_ge mc mr needed w (w >>> 1) ⟨e.tileColsLog2, e.tileRowsLog2 + 1⟩).2
    · rw [avifplugin_set_tiles_recursive, if_neg (Nat.lt_irrefl w), if_pos hr,
        avifplugin_set_tiles_recursive]
  · intro e
    have ha : minLog2TileCols 4096 = some 0 := by decide
    have hmc : maxLog2Tile 4096 MAX_TILE_COLS = some 5 := by decide
    have hmr : maxLog2Tile 4096 MAX_TILE_ROWS = some 5 := by decide
    have hb : tile_log2 (MAX_TILE_AREA >>> 14) (sbCount 4096 * sbCount 4096) = some 1 := by
      decide
    rw [set_tiles_of_locals e ha hmc hmr hb]
    decide

theorem tie_splits_rows_witness :
    (0 : Nat) < 5 ∧ avifplugin_set_tiles_recursive 4096 4096 1 5 5 ⟨0, 0⟩ = ⟨0, 1⟩ :=
  ⟨by decide, (tie_splits_rows.1 4096 0 5 5 ⟨0, 0⟩ (by decide)).2.2⟩

/-- C4: when the frame is at most 32 superblocks wide and its area is at most 576
superblocks, `avifplugin_set_tiles` sets `tileColsLog2 = 0` and `tileRowsLog2 = 0`. -/
theorem small_frame_no_split (W H : Nat) (e : avifEncoder) (hw : sbCount W ≤ 32)
    (harea : sbCount H * sbCount W ≤ 576) :
    avifplugin_set_tiles W H e = some ⟨0, 0⟩ := by
  obtain ⟨a, mc, mr, b, ha, hmc, hmr, hb⟩ := set_tiles_locals W H
  have ha0 : a = 0 := (tile_log2_eq_zero_iff ha).mpr (by
    have : MAX_TILE_WIDTH >>> 7 = 32 := by decide
    rw [this]; exact hw)
  have hb0 : b = 0 := (tile_log2_eq_zero_iff hb).mpr (by
    have : MAX_TILE_AREA >>> 14 = 576 := by decide
    rw [this]; exact harea)
  rw [set_tiles_of_locals e ha hmc hmr hb, ha0, hb0]
  simp [Max, avifplugin_set_tiles_recursive]

theorem small_frame_no_split_witness :
    sbCount 64 ≤ 32 ∧ sbCount 64 * sbCount 64 ≤ 576 ∧
      avifplugin_set_tiles 64 64 ⟨3, 5⟩ = some ⟨0, 0⟩ :=
  ⟨by decide, by decide, small_frame_no_split 64 64 ⟨3, 5⟩ (by decide) (by decide)⟩

/-- Over the natural numbers: `avifplugin_set_tiles` returns with
`tileColsLog2 ≥ minLog2TileCols` and `32 << tileColsLog2 ≥ sbCols`; so the frame is at
most `MAX_TILE_WIDTH << tileColsLog2` pixels wide, and a width above 4096 gets at least
one column split. -/
theorem set_tiles_cols_cover_width_nat (W H : Nat) (e : avifEncoder) :
    ∃ enc a, avifplugin_set_tiles W H e = some enc ∧ minLog2TileCols W = some a ∧
      a ≤ enc.tileColsLog2 ∧
      sbCount W ≤ 32 <<< enc.tileColsLog2 ∧
      W ≤ MAX_TILE_WIDTH <<< enc.tileColsLog2 ∧
      (4096 < W → 1 ≤ enc.tileColsLog2) := by
  obtain ⟨a, mc, mr, b, ha, hmc, hmr, hb⟩ := set_tiles_locals W H
  have hge := (recursive_ge mc mr (Max a b - a) (W >>> a) H ⟨a, 0⟩).1
  have hset := set_tiles_of_locals e ha hmc hmr hb
  simp only at hge
  generalize avifplugin_set_tiles_recursive (W >>> a) H (Max a b - a) mc mr ⟨a, 0⟩ = enc
    at hge hset
  have h32 : MAX_TILE_WIDTH >>> 7 = 32 := by decide
  have hcov : sbCount W ≤ 32 <<< enc.tileColsLog2 := by
    have := (tile_log2_le_iff ha enc.tileColsLog2).mp hge
    rw [h32] at this
    exact this
  have hpix : W ≤ MAX_TILE_WIDTH <<< enc.tileColsLog2 := by
    have h4096 : MAX_TILE_WIDTH = 4096 := rfl
    rw [h4096]
    rw [sbCount_eq] at hcov
    rw [Nat.shiftLeft_eq] at hcov ⊢
    generalize 2 ^ enc.tileColsLog2 = p at hcov ⊢
    omega
  refine ⟨enc, a, hset, ha, hge, hcov, hpix, ?_⟩
  intro hgt
  by_contra hne
  have h0 : enc.tileColsLog2 = 0 := by omega
  rw [h0] at hpix
  have : MAX_TILE_WIDTH <<< 0 = 4096 := by decide
  omega

/-- Over the natural numbers: for a fixed height, a wider frame never gets fewer column
splits. -/
theorem set_tiles_cols_monotone_nat (h w1 w2 : Nat) (e1 e2 : avifEncoder) (hw : w1 ≤ w2) :
    ∃ enc1 enc2, avifplugin_set_tiles w1 h e1 = some enc1 ∧
      avifplugin_set_tiles w2 h e2 = some enc2 ∧
      enc1.tileColsLog2 ≤ enc2.tileColsLog2 := by
  obtain ⟨a1, mc1, mr, b1, ha1, hmc1, hmr, hb1⟩ := set_tiles_locals w1 h
  obtain ⟨a2, mc2, mr2, b2, ha2, hmc2, hmr2, hb2⟩ := set_tiles_locals w2 h
  have hmr_eq : mr2 = mr := Option.some.inj (hmr2.symm.trans hmr)
  subst hmr_eq
  have hs := sbCount_mono hw
  have ha : a1 ≤ a2 := tile_log2_mono ha1 ha2 hs
  have hmc : mc1 ≤ mc2 := tile_log2_mono hmc1 hmc2 (Min_mono hs)
  have hb : b1 ≤ b2 := tile_log2_mono hb1 hb2 (Nat.mul_le_mul_left _ hs)
  have hM := Max_mono ha hb
  have hM1 := le_Max a1 b1
  have hM2 := le_Max a2 b2
  refine ⟨_, _, set_tiles_of_locals e1 ha1 hmc1 hmr hb1,
    set_tiles_of_locals e2 ha2 hmc2 hmr2 hb2, ?_⟩
  exact recursive_cols_mono hw hmc (Max a1 b1 - a1) (Max a2 b2 - a2) a1 0 a2 0
    (by omega) (Nat.le_refl 0) (by omega)

/-! ## The gray expansion loops -/

theorem read_src_some {pixels : List Nat} {s d v : Nat} {dest : List (Option Nat)}
    (h : pixels[s]? = some v) :
    read_src pixels ⟨s, d, dest⟩ = some (v, ⟨s + 1, d, dest⟩) := by
  simp [read_src, h]

theorem write_dest_some (v : Nat) {s d : Nat} {dest : List (Option Nat)}
    (h : d < dest.length) :
    write_dest v ⟨s, d, dest⟩ = some ⟨s, d + 1, dest.set d (some v)⟩ := by
  simp [write_dest, h]

/-- One pass through the loop body without alpha. -/
theorem gray_pixel_some {pixels : List Nat} {s d v : Nat} {dest : List (Option Nat)}
    (hv : pixels[s]? = some v) (hd : d + 3 ≤ dest.length) :
    gray_pixel pixels ⟨s, d, dest⟩ = some ⟨s + 1, d + 3,
      ((dest.set d (some v)).set (d + 1) (some v)).set (d + 2) (some v)⟩ := by
  have h0 : d < dest.length := by omega
  have h1 : d + 1 < (dest.set d (some v)).length := by rw [List.length_set]; omega
  have h2 : d + 1 + 1 < ((dest.set d (some v)).set (d + 1) (some v)).length := by
    rw [List.length_set, List.length_set]; omega
  simp only [gray_pixel, read_src_some hv, write_dest_some v h0, write_dest_some v h1,
    write_dest_some v h2, Option.bind_eq_bind, Option.some_bind]

/-- One pass through the loop body with alpha. -/
theorem gray_alpha_pixel_some {pixels : List Nat} {s d v a : Nat} {dest : List (Option Nat)}
    (hv : pixels[s]? = some v) (ha : pixels[s + 1]? = some a) (hd : d + 4 ≤ dest.length) :
    gray_alpha_pixel pixels ⟨s, d, dest⟩ = some ⟨s + 2, d + 4,
      (((dest.set d (some v)).set (d + 1) (some v)).set (d + 2) (some v)).set (d + 3)
        (some a)⟩ := by
  have h0 : d < dest.length := by omega
  have h1 : d + 1 < (dest.set d (some v)).length := by rw [List.length_set]; omega
  have h2 : d + 1 + 1 < ((dest.set d (some v)).set (d + 1) (some v)).length := by
    rw [List.length_set, List.length_set]; omega
  have h3 : d + 1 + 1 + 1 <
      (((dest.set d (some v)).set (d + 1) (some v)).set (d + 1 + 1) (some v)).length := by
    rw [List.length_set, List.length_set, List.length_set]; omega
  simp only [gray_alpha_pixel, read_src_some hv, write_dest_some v h0, write_dest_some v h1,
    write_dest_some v h2, read_src_some ha, write_dest_some a h3, Option.bind_eq_bind,
    Option.some_bind]

/-- A counting loop carries an invariant indexed by the work done so far. -/
theorem for_loop_inv (P : Nat → GrayCursor → Prop) (body : GrayCursor → Option GrayCursor)
    (step bound : Nat)
    (hbody : ∀ k c, k + step ≤ bound → P k c → ∃ c', body c = some c' ∧ P (k + step) c') :
    ∀ (n k : Nat) (c : GrayCursor), k + n * step ≤ bound → P k c →
      ∃ c', for_loop n body c = some c' ∧ P (k + n * step) c' := by
  intro n
  induction n with
  | zero =>
    intro k c _ hP
    refine ⟨c, rfl, ?_⟩
    simpa using hP
  | succ n ih =>
    intro k c hb hP
    have e1 : (n + 1) * step = step + n * step := by ring
    rw [e1] at hb ⊢
    obtain ⟨c1, hc1, hP1⟩ := hbody k c (by omega) hP
    obtain ⟨c2, hc2, hP2⟩ := ih (k + step) c1 (by omega) hP1
    refine ⟨c2, ?_, ?_⟩
    · rw [for_loop, hc1]
      exact hc2
    · rw [← Nat.add_assoc]
      exact hP2

/-- The loop body without alpha takes the invariant from `k` to `k + 1` pixels. -/
theorem gray_pixel_inv {pixels : List Nat} {T N : Nat} (hpix : pixels.length = T)
    (hN : N = 3 * T) (k : Nat) (c : GrayCursor) (hk : k + 1 ≤ T)
    (hP : GrayInv pixels N k c) :
    ∃ c', gray_pixel pixels c = some c' ∧ GrayInv pixels N (k + 1) c' := by
  obtain ⟨s, d, dest⟩ := c
  obtain ⟨hs, hd, hl, hcells⟩ := hP
  simp only at hs hd hl hcells
  subst hs hd
  have hv : pixels[s]? = some pixels[s] := List.getElem?_eq_getElem (by omega)
  refine ⟨_, gray_pixel_some hv (by omega), rfl, by simp only; omega, ?_, ?_⟩
  · simp only [List.length_set]; exact hl
  · intro i hi
    simp only
    by_cases h2 : i = 3 * s + 2
    · have e : i / 3 = s := by omega
      rw [e, hv, h2, List.getElem?_set_self (by simp only [List.length_set]; omega)]
    · rw [List.getElem?_set_ne (by omega)]
      by_cases h1 : i = 3 * s + 1
      · have e : i / 3 = s := by omega
        rw [e, hv, h1, List.getElem?_set_self (by simp only [List.length_set]; omega)]
      · rw [List.getElem?_set_ne (by omega)]
        by_cases h0 : i = 3 * s
        · have e : i / 3 = s := by omega
          rw [e, hv, h0, List.getElem?_set_self (by omega)]
        · rw [List.getElem?_set_ne (by omega)]
          exact hcells i (by omega)

/-- The loop body with alpha takes the invariant from `k` to `k + 1` pixels. -/
theorem gray_alpha_pixel_inv {pixels : List Nat} {T N : Nat} (hpix : pixels.length = 2 * T)
    (hN : N = 4 * T) (k : Nat) (c : GrayCursor) (hk : k + 1 ≤ T)
    (hP : GrayAlphaInv pixels N k c) :
    ∃ c', gray_alpha_pixel pixels c = some c' ∧ GrayAlphaInv pixels N (k + 1) c' := by
  obtain ⟨s, d, dest⟩ := c
  obtain ⟨hs, hd, hl, hcells⟩ := hP
  simp only at hs hd hl hcells
  subst hs hd
  have hv : pixels[2 * k]? = some pixels[2 * k] := List.getElem?_eq_getElem (by omega)
  have ha : pixels[2 * k + 1]? = some pixels[2 * k + 1] :=
    List.getElem?_eq_getElem (by omega)
  refine ⟨_, gray_alpha_pixel_some hv ha (by omega), by simp only; omega,
    by simp only; omega, ?_, ?_⟩
  · simp only [List.length_set]; exact hl
  · intro i hi
    simp only
    by_cases h3 : i = 4 * k + 3
    · have e : (if i % 4 = 3 then 2 * (i / 4) + 1 else 2 * (i / 4)) = 2 * k + 1 := by
        rw [if_pos (by omega)]; omega
      rw [e, ha, h3, List.getElem?_set_self (by simp only [List.length_set]; omega)]
    · have e : (if i % 4 = 3 then 2 * (i / 4) + 1 else 2 * (i / 4)) =
          if i < 4 * k then (if i % 4 = 3 then 2 * (i / 4) + 1 else 2 * (i / 4))
          else 2 * k := by
        by_cases hlt : i < 4 * k
        · rw [if_pos hlt]
        · rw [if_neg hlt, if_neg (by omega)]; omega
      rw [List.getElem?_set_ne (by omega)]
      by_cases h2 : i = 4 * k + 2
      · rw [e, if_neg (by omega), hv, h2,
          List.getElem?_set_self (by simp only [List.length_set]; omega)]
      · rw [List.getElem?_set_ne (by omega)]
        by_cases h1 : i = 4 * k + 1
        · rw [e, if_neg (by omega), hv, h1,
            List.getElem?_set_self (by simp only [List.length_set]; omega)]
        · rw [List.getElem?_set_ne (by omega)]
          by_cases h0 : i = 4 * k
          · rw [e, if_neg (by omega), hv, h0, List.getElem?_set_self (by omega)]
          · rw [List.getElem?_set_ne (by omega)]
            exact hcells i (by omega)

/-- Both nested loops together carry an invariant over all `W * H` pixels. -/
theorem nested_loops_inv (P : Nat → GrayCursor → Prop) (body : GrayCursor → Option GrayCursor)
    (W H : Nat)
    (hbody : ∀ k c, k + 1 ≤ W * H → P k c → ∃ c', body c = some c' ∧ P (k + 1) c')
    (c : GrayCursor) (hP : P 0 c) :
    ∃ c', for_loop H (for_loop W body) c = some c' ∧ P (W * H) c' := by
  have inner := for_loop_inv P body 1 (W * H) hbody
  have hrow : ∀ k c, k + W ≤ W * H → P k c →
      ∃ c', for_loop W body c = some c' ∧ P (k + W) c' := by
    intro k c hk hPk
    have := inner W k c (by omega) hPk
    rwa [Nat.mul_one] at this
  have outer := for_loop_inv P (for_loop W body) W (W * H) hrow H 0 c
    (by rw [Nat.zero_add, Nat.mul_comm]) hP
  rwa [Nat.zero_add, Nat.mul_comm] at outer

/-- The two gray loops without alpha, run on a fresh destination of `3 * (W * H)`
cells, end with every cell written. -/
theorem gray_loops_run (pixels : List Nat) (W H : Nat) (hpix : pixels.length = W * H) :
    ∃ c', for_loop H (for_loop W (gray_pixel pixels))
        ⟨0, 0, List.replicate (3 * (W * H)) none⟩ = some c' ∧
      GrayInv pixels (3 * (W * H)) (W * H) c' := by
  refine nested_loops_inv (GrayInv pixels (3 * (W * H))) (gray_pixel pixels) W H
    (gray_pixel_inv hpix rfl) _ ⟨rfl, rfl, List.length_replicate _ _, ?_⟩
  intro i hi
  omega

/-- The two gray loops with alpha, run on a fresh destination of `4 * (W * H)` cells,
end with every cell written. -/
theorem gray_alpha_loops_run (pixels : List Nat) (W H : Nat)
    (hpix : pixels.length = 2 * (W * H)) :
    ∃ c', for_loop H (for_loop W (gray_alpha_pixel pixels))
        ⟨0, 0, List.replicate (4 * (W * H)) none⟩ = some c' ∧
      GrayAlphaInv pixels (4 * (W * H)) (W * H) c' := by
  refine nested_loops_inv (GrayAlphaInv pixels (4 * (W * H))) (gray_alpha_pixel pixels) W H
    (gray_alpha_pixel_inv hpix rfl) _ ⟨rfl, rfl, List.length_replicate _ _, ?_⟩
  intro i hi
  omega

theorem g_malloc_n_rgb8 (W H : Nat) :
    g_malloc_n H (W * 3) 1 = List.replicate (3 * (W * H)) none := by
  unfold g_malloc_n
  rw [Nat.div_one]
  congr 1
  ring

theorem g_malloc_n_rgb16 (W H : Nat) :
    g_malloc_n H (W * 6) 2 = List.replicate (3 * (W * H)) none := by
  unfold g_malloc_n
  have : H * (W * 6) = 3 * (W * H) * 2 := by ring
  rw [this, Nat.mul_div_cancel _ (by decide)]

theorem g_malloc_n_rgba8 (W H : Nat) :
    g_malloc_n H (W * 4) 1 = List.replicate (4 * (W * H)) none := by
  unfold g_malloc_n
  rw [Nat.div_one]
  congr 1
  ring

theorem g_malloc_n_rgba16 (W H : Nat) :
    g_malloc_n H (W * 8) 2 = List.replicate (4 * (W * H)) none := by
  unfold g_malloc_n
  have : H * (W * 8) = 4 * (W * H) * 2 := by ring
  rw [this, Nat.mul_div_cancel _ (by decide)]

/-! ## The RGB image with an unbounded row size, with claims C8 and C10 -/

/-- The gray branch without alpha returns, with the layout fields of its depth and
a destination that satisfies the loop invariant for all `W * H` pixels. -/
theorem save_layer_rgb_gray (usesU16 : Bool) (W H : Nat) (pixels : List Nat)
    (hpix : pixels.length = W * H) :
    ∃ c', GrayInv pixels (3 * (W * H)) (W * H) c' ∧
      save_layer_rgb true false usesU16 W H pixels =
        some ⟨W, H, if usesU16 then 16 else 8, avifRGBFormat.AVIF_RGB_FORMAT_RGB,
          W * (if usesU16 then 6 else 3), c'.dest⟩ := by
  obtain ⟨c', hrun, hinv⟩ := gray_loops_run pixels W H hpix
  refine ⟨c', hinv, ?_⟩
  cases usesU16
  · simp [save_layer_rgb, g_malloc_n_rgb8, hrun]
  · simp [save_layer_rgb, g_malloc_n_rgb16, hrun]

/-- The gray branch with alpha returns, with the layout fields of its depth and a
destination that satisfies the loop invariant for all `W * H` pixels. -/
theorem save_layer_rgb_gray_alpha (usesU16 : Bool) (W H : Nat) (pixels : List Nat)
    (hpix : pixels.length = 2 * (W * H)) :
    ∃ c', GrayAlphaInv pixels (4 * (W * H)) (W * H) c' ∧
      save_layer_rgb true true usesU16 W H pixels =
        some ⟨W, H, if usesU16 then 16 else 8, avifRGBFormat.AVIF_RGB_FORMAT_RGBA,
          W * (if usesU16 then 8 else 4), c'.dest⟩ := by
  obtain ⟨c', hrun, hinv⟩ := gray_alpha_loops_run pixels W H hpix
  refine ⟨c', hinv, ?_⟩
  cases usesU16
  · simp [save_layer_rgb, g_malloc_n_rgba8, hrun]
  · simp [save_layer_rgb, g_malloc_n_rgba16, hrun]

/-- With `rgb.rowBytes` taken as a product of natural numbers: for a gray source of
`W * H` samples without alpha the destination has exactly `3 * W * H` samples, and for
every pixel `p` the samples at `3p`, `3p + 1` and `3p + 2` are the source sample `p`. -/
theorem gray_export_replicates_nat (usesU16 : Bool) (W H : Nat) (pixels : List Nat)
    (hpix : pixels.length = W * H) :
    ∃ rgb, save_layer_rgb true false usesU16 W H pixels = some rgb ∧
      rgb.pixels.length = 3 * W * H ∧
      ∀ p, p < W * H → ∃ s, pixels[p]? = some s ∧
        rgb.pixels[3 * p]? = some (some s) ∧
        rgb.pixels[3 * p + 1]? = some (some s) ∧
        rgb.pixels[3 * p + 2]? = some (some s) := by
  obtain ⟨c', ⟨_, _, hlen, hcells⟩, hrgb⟩ := save_layer_rgb_gray usesU16 W H pixels hpix
  refine ⟨_, hrgb, ?_, ?_⟩
  · simp only [hlen]; ring
  · intro p hp
    have hs : pixels[p]? = some pixels[p] := List.getElem?_eq_getElem (by omega)
    refine ⟨pixels[p], hs, ?_, ?_, ?_⟩
    · rw [← hs]
      have := hcells (3 * p) (by omega)
      rwa [show 3 * p / 3 = p by omega] at this
    · rw [← hs]
      have := hcells (3 * p + 1) (by omega)
      rwa [show (3 * p + 1) / 3 = p by omega] at this
    · rw [← hs]
      have := hcells (3 * p + 2) (by omega)
      rwa [show (3 * p + 2) / 3 = p by omega] at this

/-- With `rgb.rowBytes` taken as a product of natural numbers: in each of the eight
branches `rowBytes = width * channels * bytesPerSample`, with the format and depth of
the branch. -/
theorem rgb_row_stride_nat (is_gray save_alpha usesU16 : Bool) (W H : Nat) (pixels : List Nat)
    (hsrc : is_gray = true → pixels.length = (if save_alpha then 2 else 1) * (W * H)) :
    ∃ rgb, save_layer_rgb is_gray save_alpha usesU16 W H pixels = some rgb ∧
      rgb.rowBytes = W * (if save_alpha then 4 else 3) * (if usesU16 then 2 else 1) ∧
      rgb.format = (if save_alpha then avifRGBFormat.AVIF_RGB_FORMAT_RGBA
        else avifRGBFormat.AVIF_RGB_FORMAT_RGB) ∧
      rgb.depth = (if usesU16 then 16 else 8) ∧
      rgb.width = W ∧ rgb.height = H := by
  cases is_gray
  · cases save_alpha <;> cases usesU16 <;> simp [save_layer_rgb, Nat.mul_assoc]
  · have hlen := hsrc rfl
    cases save_alpha
    · simp only [Bool.false_eq_true, if_false, Nat.one_mul] at hlen
      obtain ⟨c', _, hrgb⟩ := save_layer_rgb_gray usesU16 W H pixels hlen
      refine ⟨_, hrgb, ?_⟩
      cases usesU16 <;> simp [Nat.mul_assoc]
    · simp only [if_true] at hlen
      obtain ⟨c', _, hrgb⟩ := save_layer_rgb_gray_alpha usesU16 W H pixels hlen
      refine ⟨_, hrgb, ?_⟩
      cases usesU16 <;> simp [Nat.mul_assoc]

/-- C10: for a colour drawable (`is_gray` false) of either depth, with or without
alpha, the pixel data handed to the colour conversion is the source buffer: same
length and, at every index, the source sample of that index.  A 2x2 RGBA buffer of
wide depth with 16 distinct samples is passed on as those 16 samples in order. -/
theorem color_export_passthrough :
    (∀ (save_alpha usesU16 : Bool) (W H : Nat) (pixels : List Nat),
      ∃ rgb, save_layer_rgb false save_alpha usesU16 W H pixels = some rgb ∧
        rgb.pixels = pixels.map some ∧
        rgb.pixels.length = pixels.length ∧
        ∀ i : Nat, rgb.pixels[i]? = Option.map some pixels[i]?) ∧
    save_layer_rgb false true true 2 2
        [11, 12, 13, 14, 21, 22, 23, 24, 31, 32, 33, 34, 41, 42, 43, 44] =
      some ⟨2, 2, 16, avifRGBFormat.AVIF_RGB_FORMAT_RGBA, 16,
        [some 11, some 12, some 13, some 14, some 21, some 22, some 23, some 24,
         some 31, some 32, some 33, some 34, some 41, some 42, some 43, some 44]⟩ := by
  refine ⟨?_, by decide⟩
  intro save_alpha usesU16 W H pixels
  cases save_alpha <;> cases usesU16 <;> simp [save_layer_rgb]

/-! ## The tile planner in `unsigned int` arithmetic -/

theorem sbCount_u32_eq {frame : Nat} (hf : frame + 7 < 2 ^ 32) :
    sbCount_u32 frame = sbCount frame := by
  have h32 : (2 : Nat) ^ 32 = 4294967296 := by norm_num
  rw [h32] at hf
  unfold sbCount_u32 sbCount
  simp only [Nat.shiftRight_eq_div_pow, h32]
  omega

/-- When the result over the natural numbers is below 32 and the last value shifted
fits 32 bits, the 32-bit loop walks through the same counters and stops at the same
one. -/
theorem tile_log2_loop_u32_eq {b t k : Nat} (hk : k < 32) (hs : b <<< k < 2 ^ 32)
    (hge : t ≤ b <<< k) (hlt : ∀ j, j < k → b <<< j < t) :
    ∀ (fuel j : Nat), j ≤ k → k + 1 ≤ fuel + j →
      tile_log2_loop_u32 b t fuel j = some k := by
  intro fuel
  induction fuel with
  | zero => intro j hj hf; omega
  | succ f ih =>
    intro j hj hf
    have hmod : (b <<< j) % 2 ^ 32 = b <<< j :=
      Nat.mod_eq_of_lt (Nat.lt_of_le_of_lt (shiftLeft_mono b hj) hs)
    unfold tile_log2_loop_u32
    rw [if_pos (by omega), hmod]
    rcases Nat.lt_or_ge j k with hjk | hjk
    · rw [if_pos (hlt j hjk)]
      exact ih (j + 1) hjk (by omega)
    · have hjk' : j = k := by omega
      rw [hjk', if_neg (by omega)]

theorem tile_log2_u32_eq {b t k : Nat} (h : tile_log2 b t = some k) (hk : k < 32)
    (hs : b <<< k < 2 ^ 32) : tile_log2_u32 b t = some k := by
  obtain ⟨h1, h2⟩ := tile_log2_result h
  exact tile_log2_loop_u32_eq hk hs h1 h2 33 0 (Nat.zero_le k) (by omega)

/-- Once the sums and the product do not wrap and the four 32-bit calls of `tile_log2`
have returned, the 32-bit `avifplugin_set_tiles` is the same run of the recursive
splitter as over the natural numbers. -/
theorem set_tiles_u32_of_locals {W H a mc mr b : Nat} (e : avifEncoder)
    (hW : W + 7 < 2 ^ 32) (hH : H + 7 < 2 ^ 32)
    (harea : sbCount H * sbCount W < 2 ^ 32)
    (ha : tile_log2_u32 (MAX_TILE_WIDTH >>> 7) (sbCount W) = some a)
    (hmc : tile_log2_u32 1 (Min (sbCount W) MAX_TILE_COLS) = some mc)
    (hmr : tile_log2_u32 1 (Min (sbCount H) MAX_TILE_ROWS) = some mr)
    (hb : tile_log2_u32 (MAX_TILE_AREA >>> 14) (sbCount H * sbCount W) = some b) :
    avifplugin_set_tiles_u32 W H e =
      some (avifplugin_set_tiles_recursive (W >>> a) H (Max a b - a) mc mr ⟨a, 0⟩) := by
  have e1 : (((2 * (((W + 7) % 2 ^ 32) >>> 3)) % 2 ^ 32 + 31) % 2 ^ 32) >>> 5 = sbCount W :=
    sbCount_u32_eq hW
  have e2 : (((2 * (((H + 7) % 2 ^ 32) >>> 3)) % 2 ^ 32 + 31) % 2 ^ 32) >>> 5 = sbCount H :=
    sbCount_u32_eq hH
  have e3 : (sbCount H * sbCount W) % 2 ^ 32 = sbCount H * sbCount W :=
    Nat.mod_eq_of_lt harea
  have ha' : tile_log2_u32 (MAX_TILE_WIDTH >>> (5 + 2)) (sbCount W) = some a := ha
  have hb' : tile_log2_u32 (MAX_TILE_AREA >>> (2 * (5 + 2))) (sbCount H * sbCount W)
      = some b := hb
  simp only [avifplugin_set_tiles_u32, e1, e2, e3, ha', hmc, hmr, hb', Option.bind_eq_bind,
    Option.some_bind, Option.pure_def]
  by_cases hgt : Max a b > a
  · rw [if_pos hgt]
  · rw [if_neg hgt]
    have h0 : Max a b - a = 0 := by omega
    rw [h0]
    simp [avifplugin_set_tiles_recursive]

theorem Min_le_right (a c : Nat) : Min a c ≤ c := by
  unfold Min
  split_ifs <;> omega

/-- A call of `tile_log2` whose target is reached after at most `m < 32` shifts, the
last of which fits 32 bits, has the same result in 32-bit arithmetic; the result is
at most `m` and every value shifted on the way fits 32 bits. -/
theorem tile_log2_u32_of_bound {b t k m : Nat} (h : tile_log2 b t = some k) (hm : m < 32)
    (hfit : b <<< m < 2 ^ 32) (ht : t ≤ b <<< m) :
    tile_log2_u32 b t = some k ∧ k ≤ m ∧ ∀ j, j ≤ k → b <<< j < 2 ^ 32 := by
  have hkm : k ≤ m := (tile_log2_le_iff h m).mpr ht
  have hall : ∀ j, j ≤ k → b <<< j < 2 ^ 32 := fun j hj =>
    Nat.lt_of_le_of_lt (shiftLeft_mono b (Nat.le_trans hj hkm)) hfit
  exact ⟨tile_log2_u32_eq h (by omega) (hall k (Nat.le_refl k)), hkm, hall⟩

/-! ## The exact number of splits over the natural numbers, and claims C12 and C14 -/

/-- Over the natural numbers: whenever `minLog2TileCols ≤ maxLog2TileCols`, the grid has
`tileColsLog2 + tileRowsLog2 = min minLog2Tiles (maxLog2TileCols + maxLog2TileRows)`;
so it never has more splits than `minLog2Tiles`, and if it has fewer then both counts
are at their caps. -/
theorem set_tiles_sum_exact_nat (W H : Nat) (e : avifEncoder) :
    ∃ enc a mc mr m, avifplugin_set_tiles W H e = some enc ∧
      minLog2TileCols W = some a ∧
      maxLog2Tile W MAX_TILE_COLS = some mc ∧
      maxLog2Tile H MAX_TILE_ROWS = some mr ∧
      minLog2Tiles W H = some m ∧
      (a ≤ mc →
        enc.tileColsLog2 + enc.tileRowsLog2 = min m (mc + mr) ∧
        enc.tileColsLog2 + enc.tileRowsLog2 ≤ m ∧
        (enc.tileColsLog2 + enc.tileRowsLog2 < m →
          enc.tileColsLog2 = mc ∧ enc.tileRowsLog2 = mr)) := by
  obtain ⟨a, mc, mr, b, ha, hmc, hmr, hb⟩ := set_tiles_locals W H
  have hsum := recursive_sum mc mr (Max a b - a) (W >>> a) H ⟨a, 0⟩
  have hle := recursive_le mc mr (Max a b - a) (W >>> a) H ⟨a, 0⟩
  have hM := le_Max a b
  have hset := set_tiles_of_locals e ha hmc hmr hb
  simp only at hsum hle
  generalize avifplugin_set_tiles_recursive (W >>> a) H (Max a b - a) mc mr ⟨a, 0⟩ = enc
    at hsum hle hset
  refine ⟨enc, a, mc, mr, Max a b, hset, ha, hmc, hmr, minLog2Tiles_of_locals ha hb, ?_⟩
  intro hamc
  simp only [Nat.min_def, Nat.max_def] at hsum hle ⊢
  split_ifs at hsum hle ⊢ <;> omega

/-- C12: for a positive block size `tile_log2`, computed over the natural numbers,
returns, and its result `k` is the least number with `blkSize << k ≥ target`: the
bound holds at `k` and fails at every `j < k`.  The result is 0 exactly when
`target ≤ blkSize`. -/
theorem tile_log2_least (blkSize target : Nat) (hb : 0 < blkSize) :
    ∃ k, tile_log2 blkSize target = some k ∧
      target ≤ blkSize <<< k ∧
      (∀ j, j < k → blkSize <<< j < target) ∧
      (k = 0 ↔ target ≤ blkSize) := by
  obtain ⟨k, hk⟩ := tile_log2_total blkSize target hb
  obtain ⟨h1, h2⟩ := tile_log2_result hk
  exact ⟨k, hk, h1, h2, tile_log2_eq_zero_iff hk⟩

theorem tile_log2_least_witness :
    (0 : Nat) < 32 ∧ tile_log2 32 40 = some 1 ∧ 40 ≤ 32 <<< 1 ∧ 32 <<< 0 < 40 := by
  obtain ⟨k, hk, h1, h2, _⟩ := tile_log2_least 32 40 (by decide)
  have h : k = 1 := Option.some.inj (hk.symm.trans (by decide))
  subst h
  exact ⟨by decide, hk, h1, h2 0 (by decide)⟩

/-- C14: as long as `FrameWidth + 7` does not wrap, the superblock count computed in
`unsigned int` arithmetic by `((2 * ((FrameWidth + 7) >> 3)) + 31) >> 5` is the ceiling
of `FrameWidth / 128`: it equals `(FrameWidth + 127) / 128`, the least `s` with
`FrameWidth ≤ 128 * s`, and it is the count computed over the natural numbers.  The same
holds for the height, which goes through the same expression.  Further
`maxTileWidthSb = 32` and `maxTileAreaSb = 576`. -/
theorem sbCount_is_ceiling :
    (∀ frame : Nat, frame + 7 < 2 ^ 32 →
      sbCount_u32 frame = (frame + 127) / 128 ∧
      sbCount_u32 frame = sbCount frame ∧
      frame ≤ 128 * sbCount_u32 frame ∧
      ∀ s, frame ≤ 128 * s → sbCount_u32 frame ≤ s) ∧
    (∀ frame : Nat, sbCount frame = (frame + 127) / 128) ∧
    MAX_TILE_WIDTH >>> (5 + 2) = 32 ∧
    MAX_TILE_AREA >>> (2 * (5 + 2)) = 576 := by
  refine ⟨?_, sbCount_eq, by decide, by decide⟩
  intro frame hf
  have h32 : (2 : Nat) ^ 32 = 4294967296 := by norm_num
  rw [h32] at hf
  have hu : sbCount_u32 frame = (frame + 127) / 128 := by
    unfold sbCount_u32
    simp only [Nat.shiftRight_eq_div_pow, h32]
    omega
  refine ⟨hu, by rw [hu, sbCount_eq], by rw [hu]; omega, ?_⟩
  intro s hs
  rw [hu]
  omega

theorem sbCount_is_ceiling_witness :
    (5000 : Nat) + 7 < 2 ^ 32 ∧ sbCount_u32 5000 = (5000 + 127) / 128 ∧
      sbCount_u32 5000 = 40 :=
  ⟨by decide, (sbCount_is_ceiling.1 5000 (by decide)).1, by decide⟩

/-- C16: with `AVIF_QUANTIZER_BEST_QUALITY ≤ AVIF_QUANTIZER_WORST_QUALITY`, whatever the
two inputs, the clamping in `save_layer` leaves
`BEST ≤ min_quantizer ≤ max_quantizer ≤ WORST`, and it changes neither value when the
inputs already satisfy this. -/
theorem clamp_quantizers_ordered (best worst max_quantizer min_quantizer : Int)
    (hbw : best ≤ worst) :
    best ≤ (clamp_quantizers best worst max_quantizer min_quantizer).2 ∧
    (clamp_quantizers best worst max_quantizer min_quantizer).2 ≤
      (clamp_quantizers best worst max_quantizer min_quantizer).1 ∧
    (clamp_quantizers best worst max_quantizer min_quantizer).1 ≤ worst ∧
    (best ≤ min_quantizer → min_quantizer ≤ max_quantizer → max_quantizer ≤ worst →
      clamp_quantizers best worst max_quantizer min_quantizer =
        (max_quantizer, min_quantizer)) := by
  unfold clamp_quantizers
  simp only
  refine ⟨?_, ?_, ?_, ?_⟩
  · split_ifs <;> omega
  · split_ifs <;> omega
  · split_ifs <;> omega
  · intro h1 h2 h3
    rw [if_neg (by omega), if_neg (by omega), if_neg (by omega), if_neg (by omega)]

theorem clamp_quantizers_ordered_witness :
    (0 : Int) ≤ 63 ∧ clamp_quantizers 0 63 70 80 = (63, 63) ∧
    (0 : Int) ≤ (clamp_quantizers 0 63 70 80).2 ∧
    (clamp_quantizers 0 63 70 80).2 ≤ (clamp_quantizers 0 63 70 80).1 ∧
    (clamp_quantizers 0 63 70 80).1 ≤ 63 ∧
    clamp_quantizers 0 63 40 10 = (40, 10) := by
  have h := clamp_quantizers_ordered 0 63 70 80 (by decide)
  have h' := clamp_quantizers_ordered 0 63 40 10 (by decide)
  exact ⟨by decide, by decide, h.1, h.2.1, h.2.2.1, h'.2.2.2 (by decide) (by decide)
    (by decide)⟩

/-! ## Claim C15 -/

/-- C15: for `FrameWidth` and `FrameHeight` up to `2^32 - 8` whose superblock counts
`ceil (FrameWidth / 128)` and `ceil (FrameHeight / 128)` have a product of at most
`576 * 2^22`, nothing wraps in the 32-bit computation of `avifplugin_set_tiles`:
`FrameWidth + 7`, `FrameHeight + 7`, `MiCols + 31`, `MiRows + 31` and `sbRows * sbCols`
are below `2^32`; each of the four calls of `tile_log2` returns in 32-bit arithmetic
the result it has over the natural numbers, that result is below 32 (at most 20, 6, 6
and 22) and every `blkSize << k` evaluated on the way is below `2^32`; and the grid of
the 32-bit computation is the grid computed over the natural numbers.  Every frame up
to 262144 x 262144 is in this range. -/
theorem set_tiles_u32_agrees :
    (∀ (W H : Nat) (e : avifEncoder), W ≤ 2 ^ 32 - 8 → H ≤ 2 ^ 32 - 8 →
      ((W + 127) / 128) * ((H + 127) / 128) ≤ 576 * 2 ^ 22 →
      W + 7 < 2 ^ 32 ∧ H + 7 < 2 ^ 32 ∧
      2 * ((W + 7) >>> 3) + 31 < 2 ^ 32 ∧ 2 * ((H + 7) >>> 3) + 31 < 2 ^ 32 ∧
      sbCount_u32 W = sbCount W ∧ sbCount_u32 H = sbCount H ∧
      sbCount H * sbCount W < 2 ^ 32 ∧
      ∃ a mc mr b enc,
        minLog2TileCols W = some a ∧
        tile_log2_u32 (MAX_TILE_WIDTH >>> 7) (sbCount_u32 W) = some a ∧
        a ≤ 20 ∧ (∀ j, j ≤ a → (MAX_TILE_WIDTH >>> 7) <<< j < 2 ^ 32) ∧
        maxLog2Tile W MAX_TILE_COLS = some mc ∧
        tile_log2_u32 1 (Min (sbCount_u32 W) MAX_TILE_COLS) = some mc ∧
        mc ≤ 6 ∧ (∀ j, j ≤ mc → 1 <<< j < 2 ^ 32) ∧
        maxLog2Tile H MAX_TILE_ROWS = some mr ∧
        tile_log2_u32 1 (Min (sbCount_u32 H) MAX_TILE_ROWS) = some mr ∧
        mr ≤ 6 ∧ (∀ j, j ≤ mr → 1 <<< j < 2 ^ 32) ∧
        tile_log2 (MAX_TILE_AREA >>> 14) (sbCount H * sbCount W) = some b ∧
        tile_log2_u32 (MAX_TILE_AREA >>> 14) ((sbCount_u32 H * sbCount_u32 W) % 2 ^ 32)
          = some b ∧
        b ≤ 22 ∧ (∀ j, j ≤ b → (MAX_TILE_AREA >>> 14) <<< j < 2 ^ 32) ∧
        avifplugin_set_tiles_u32 W H e = some enc ∧
        avifplugin_set_tiles W H e = some enc) ∧
    (∀ W H : Nat, W ≤ 262144 → H ≤ 262144 →
      W ≤ 2 ^ 32 - 8 ∧ H ≤ 2 ^ 32 - 8 ∧
      ((W + 127) / 128) * ((H + 127) / 128) ≤ 576 * 2 ^ 22) := by
  have h32 : (2 : Nat) ^ 32 = 4294967296 := by norm_num
  have h22 : 576 * (2 : Nat) ^ 22 = 2415919104 := by norm_num
  constructor
  · intro W H e hW hH harea
    rw [h32] at hW hH
    rw [h22] at harea
    have hW7 : W + 7 < 2 ^ 32 := by rw [h32]; omega
    have hH7 : H + 7 < 2 ^ 32 := by rw [h32]; omega
    have hsW := sbCount_u32_eq hW7
    have hsH := sbCount_u32_eq hH7
    have hcW : sbCount W ≤ 33554432 := by rw [sbCount_eq]; omega
    have hcH : sbCount H ≤ 33554432 := by rw [sbCount_eq]; omega
    have hprod : sbCount H * sbCount W ≤ 2415919104 := by
      rw [sbCount_eq, sbCount_eq, Nat.mul_comm]; exact harea
    have hprod32 : sbCount H * sbCount W < 2 ^ 32 := by rw [h32]; omega
    obtain ⟨a, mc, mr, b, ha, hmc, hmr, hb⟩ := set_tiles_locals W H
    obtain ⟨ua, hale, hafit⟩ := tile_log2_u32_of_bound (m := 20) ha (by decide) (by decide)
      (by
        have h20 : (MAX_TILE_WIDTH >>> 7) <<< 20 = 33554432 := by decide
        rw [h20]; exact hcW)
    obtain ⟨umc, hmcle, hmcfit⟩ := tile_log2_u32_of_bound (m := 6) hmc (by decide)
      (by decide) (Min_le_right _ _)
    obtain ⟨umr, hmrle, hmrfit⟩ := tile_log2_u32_of_bound (m := 6) hmr (by decide)
      (by decide) (Min_le_right _ _)
    obtain ⟨ub, hble, hbfit⟩ := tile_log2_u32_of_bound (m := 22) hb (by decide) (by decide)
      (by
        have h576 : (MAX_TILE_AREA >>> 14) <<< 22 = 2415919104 := by decide
        rw [h576]; exact hprod)
    refine ⟨hW7, hH7, ?_, ?_, hsW, hsH, hprod32, a, mc, mr, b, _, ha, ?_, hale, hafit,
      hmc, ?_, hmcle, hmcfit, hmr, ?_, hmrle, hmrfit, hb, ?_, hble, hbfit,
      set_tiles_u32_of_locals e hW7 hH7 hprod32 ua umc umr ub,
      set_tiles_of_locals e ha hmc hmr hb⟩
    · rw [h32]; simp only [Nat.shiftRight_eq_div_pow]; omega
    · rw [h32]; simp only [Nat.shiftRight_eq_div_pow]; omega
    · rw [hsW]; exact ua
    · rw [hsW]; exact umc
    · rw [hsH]; exact umr
    · rw [hsW, hsH, Nat.mod_eq_of_lt hprod32]; exact ub
  · intro W H hW hH
    rw [h32, h22]
    refine ⟨by omega, by omega, ?_⟩
    have h1 : (W + 127) / 128 ≤ 2048 := by omega
    have h2 : (H + 127) / 128 ≤ 2048 := by omega
    calc (W + 127) / 128 * ((H + 127) / 128) ≤ 2048 * 2048 := Nat.mul_le_mul h1 h2
      _ ≤ 2415919104 := by norm_num

theorem set_tiles_u32_agrees_witness :
    (5000 : Nat) ≤ 2 ^ 32 - 8 ∧ (3000 : Nat) ≤ 2 ^ 32 - 8 ∧
    ((5000 + 127) / 128) * ((3000 + 127) / 128) ≤ 576 * 2 ^ 22 ∧
    ∃ enc, avifplugin_set_tiles_u32 5000 3000 ⟨0, 0⟩ = some enc ∧
      avifplugin_set_tiles 5000 3000 ⟨0, 0⟩ = some enc := by
  refine ⟨by decide, by decide, by decide, ?_⟩
  obtain ⟨_, _, _, _, _, _, _, _, _, _, _, enc, h⟩ :=
    set_tiles_u32_agrees.1 5000 3000 ⟨0, 0⟩ (by decide) (by decide) (by decide)
  exact ⟨enc, h.2.2.2.2.2.2.2.2.2.2.2.2.2.2.2.2.1, h.2.2.2.2.2.2.2.2.2.2.2.2.2.2.2.2.2⟩

/-! ## The memory accesses of the gray expansion: claim C13 -/

/-- Dropping the record from a traced loop body gives the plain loop body. -/
theorem gray_pixel_traced_cursor (pixels : List Nat) (t : GrayTrace) :
    (gray_pixel_traced pixels t).map GrayTrace.cursor = gray_pixel pixels t.cursor := by
  obtain ⟨c, r, w⟩ := t
  simp only [gray_pixel_traced, gray_pixel, read_src_traced, write_dest_traced,
    Option.bind_eq_bind]
  cases h1 : read_src pixels c with
  | none => simp
  | some p =>
    obtain ⟨v, c1⟩ := p
    simp only [Option.some_bind]
    cases h2 : write_dest v c1 with
    | none => simp
    | some c2 =>
      simp only [Option.some_bind]
      cases h3 : write_dest v c2 with
      | none => simp
      | some c3 =>
        simp only [Option.some_bind]
        cases h4 : write_dest v c3 with
        | none => simp
        | some c4 => simp

theorem gray_alpha_pixel_traced_cursor (pixels : List Nat) (t : GrayTrace) :
    (gray_alpha_pixel_traced pixels t).map GrayTrace.cursor =
      gray_alpha_pixel pixels t.cursor := by
  obtain ⟨c, r, w⟩ := t
  simp only [gray_alpha_pixel_traced, gray_alpha_pixel, read_src_traced, write_dest_traced,
    Option.bind_eq_bind]
  cases h1 : read_src pixels c with
  | none => simp
  | some p =>
    obtain ⟨v, c1⟩ := p
    simp only [Option.some_bind]
    cases h2 : write_dest v c1 with
    | none => simp
    | some c2 =>
      simp only [Option.some_bind]
      cases h3 : write_dest v c2 with
      | none => simp
      | some c3 =>
        simp only [Option.some_bind]
        cases h4 : write_dest v c3 with
        | none => simp
        | some c4 =>
          simp only [Option.some_bind]
          cases h5 : read_src pixels c4 with
          | none => simp
          | some q =>
            obtain ⟨a, c5⟩ := q
            simp only [Option.some_bind]
            cases h6 : write_dest a c5 with
            | none => simp
            | some c6 => simp

/-- Dropping the record from a traced loop gives the plain loop. -/
theorem for_loop_traced_cursor (bt : GrayTrace → Option GrayTrace)
    (b : GrayCursor → Option GrayCursor)
    (h : ∀ t, (bt t).map GrayTrace.cursor = b t.cursor) :
    ∀ (n : Nat) (t : GrayTrace),
      (for_loop_traced n bt t).map GrayTrace.cursor = for_loop n b t.cursor := by
  intro n
  induction n with
  | zero => intro t; simp [for_loop_traced, for_loop]
  | succ n ih =>
    intro t
    have ht := h t
    rw [for_loop_traced, for_loop]
    cases hb : bt t with
    | none =>
      rw [hb] at ht
      simp only [Option.map_none'] at ht
      rw [← ht]
      simp
    | some t1 =>
      rw [hb] at ht
      simp only [Option.map_some'] at ht
      rw [← ht]
      simp only [Option.some_bind]
      exact ih t1

theorem read_src_traced_some {pixels : List Nat} {s d v : Nat} {dest : List (Option Nat)}
    {r w : List Nat} (h : pixels[s]? = some v) :
    read_src_traced pixels ⟨⟨s, d, dest⟩, r, w⟩ = some (v, ⟨⟨s + 1, d, dest⟩, r ++ [s], w⟩) := by
  simp [read_src_traced, read_src_some h]

theorem write_dest_traced_some (v : Nat) {s d : Nat} {dest : List (Option Nat)}
    {r w : List Nat} (h : d < dest.length) :
    write_dest_traced v ⟨⟨s, d, dest⟩, r, w⟩ =
      some ⟨⟨s, d + 1, dest.set d (some v)⟩, r, w ++ [d]⟩ := by
  simp [write_dest_traced, write_dest_some v h]

/-- One pass through the traced loop body without alpha: one read at the source
pointer, three writes at the destination pointer and the two cells after it. -/
theorem gray_pixel_traced_some {pixels : List Nat} {s d v : Nat} {dest : List (Option Nat)}
    {r w : List Nat} (hv : pixels[s]? = some v) (hd : d + 3 ≤ dest.length) :
    gray_pixel_traced pixels ⟨⟨s, d, dest⟩, r, w⟩ = some ⟨⟨s + 1, d + 3,
      ((dest.set d (some v)).set (d + 1) (some v)).set (d + 2) (some v)⟩,
      r ++ [s], w ++ [d] ++ [d + 1] ++ [d + 2]⟩ := by
  have h0 : d < dest.length := by omega
  have h1 : d + 1 < (dest.set d (some v)).length := by rw [List.length_set]; omega
  have h2 : d + 1 + 1 < ((dest.set d (some v)).set (d + 1) (some v)).length := by
    rw [List.length_set, List.length_set]; omega
  simp only [gray_pixel_traced, read_src_traced_some hv, write_dest_traced_some v h0,
    write_dest_traced_some v h1, write_dest_traced_some v h2, Option.bind_eq_bind,
    Option.some_bind]

/-- One pass through the traced loop body with alpha: reads at the source pointer and
the cell after it, four writes from the destination pointer on. -/
theorem gray_alpha_pixel_traced_some {pixels : List Nat} {s d v a : Nat}
    {dest : List (Option Nat)} {r w : List Nat}
    (hv : pixels[s]? = some v) (ha : pixels[s + 1]? = some a) (hd : d + 4 ≤ dest.length) :
    gray_alpha_pixel_traced pixels ⟨⟨s, d, dest⟩, r, w⟩ = some ⟨⟨s + 2, d + 4,
      (((dest.set d (some v)).set (d + 1) (some v)).set (d + 2) (some v)).set (d + 3)
        (some a)⟩,
      r ++ [s] ++ [s + 1], w ++ [d] ++ [d + 1] ++ [d + 2] ++ [d + 3]⟩ := by
  have h0 : d < dest.length := by omega
  have h1 : d + 1 < (dest.set d (some v)).length := by rw [List.length_set]; omega
  have h2 : d + 1 + 1 < ((dest.set d (some v)).set (d + 1) (some v)).length := by
    rw [List.length_set, List.length_set]; omega
  have h3 : d + 1 + 1 + 1 <
      (((dest.set d (some v)).set (d + 1) (some v)).set (d + 1 + 1) (some v)).length := by
    rw [List.length_set, List.length_set, List.length_set]; omega
  simp only [gray_alpha_pixel_traced, read_src_traced_some hv, write_dest_traced_some v h0,
    write_dest_traced_some v h1, write_dest_traced_some v h2, read_src_traced_some ha,
    write_dest_traced_some a h3, Option.bind_eq_bind, Option.some_bind]

/-- A traced counting loop carries an invariant indexed by the work done so far. -/
theorem for_loop_traced_inv (P : Nat → GrayTrace → Prop) (body : GrayTrace → Option GrayTrace)
    (step bound : Nat)
    (hbody : ∀ k t, k + step ≤ bound → P k t → ∃ t', body t = some t' ∧ P (k + step) t') :
    ∀ (n k : Nat) (t : GrayTrace), k + n * step ≤ bound → P k t →
      ∃ t', for_loop_traced n body t = some t' ∧ P (k + n * step) t' := by
  intro n
  induction n with
  | zero =>
    intro k t _ hP
    refine ⟨t, rfl, ?_⟩
    simpa using hP
  | succ n ih =>
    intro k t hb hP
    have e1 : (n + 1) * step = step + n * step := by ring
    rw [e1] at hb ⊢
    obtain ⟨t1, ht1, hP1⟩ := hbody k t (by omega) hP
    obtain ⟨t2, ht2, hP2⟩ := ih (k + step) t1 (by omega) hP1
    refine ⟨t2, ?_, ?_⟩
    · rw [for_loop_traced, ht1]
      exact ht2
    · rw [← Nat.add_assoc]
      exact hP2

/-- Both traced nested loops together carry an invariant over all `W * H` pixels. -/
theorem nested_traced_inv (P : Nat → GrayTrace → Prop) (body : GrayTrace → Option GrayTrace)
    (W H : Nat)
    (hbody : ∀ k t, k + 1 ≤ W * H → P k t → ∃ t', body t = some t' ∧ P (k + 1) t')
    (t : GrayTrace) (hP : P 0 t) :
    ∃ t', for_loop_traced H (for_loop_traced W body) t = some t' ∧ P (W * H) t' := by
  have inner := for_loop_traced_inv P body 1 (W * H) hbody
  have hrow : ∀ k t, k + W ≤ W * H → P k t →
      ∃ t', for_loop_traced W body t = some t' ∧ P (k + W) t' := by
    intro k t hk hPk
    have hrun := inner W k t (by omega) hPk
    rwa [Nat.mul_one] at hrun
  have outer := for_loop_traced_inv P (for_loop_traced W body) W (W * H) hrow H 0 t
    (by rw [Nat.zero_add, Nat.mul_comm]) hP
  rwa [Nat.zero_add, Nat.mul_comm] at outer

/-- The traced loop body without alpha takes the access invariant from `k` to `k + 1`
pixels. -/
theorem gray_pixel_traced_inv {pixels : List Nat} {T N : Nat} (hpix : pixels.length = T)
    (hN : N = 3 * T) (k : Nat) (t : GrayTrace) (hk : k + 1 ≤ T)
    (hP : GrayTraceInv N k t) :
    ∃ t', gray_pixel_traced pixels t = some t' ∧ GrayTraceInv N (k + 1) t' := by
  obtain ⟨⟨s, d, dest⟩, r, w⟩ := t
  obtain ⟨hs, hd, hl, hr, hw⟩ := hP
  simp only at hs hd hl hr hw
  subst hs hd hr hw
  have hv : pixels[s]? = some pixels[s] := List.getElem?_eq_getElem (by omega)
  refine ⟨_, gray_pixel_traced_some hv (by omega), rfl, by simp only; omega, ?_, ?_, ?_⟩
  · simp only [List.length_set]; exact hl
  · simp only; rw [List.range_succ]
  · show _ = List.range (3 * s + 1 + 1 + 1)
    rw [List.range_succ, List.range_succ, List.range_succ]

/-- The traced loop body with alpha takes the access invariant from `k` to `k + 1`
pixels. -/
theorem gray_alpha_pixel_traced_inv {pixels : List Nat} {T N : Nat}
    (hpix : pixels.length = 2 * T) (hN : N = 4 * T) (k : Nat) (t : GrayTrace)
    (hk : k + 1 ≤ T) (hP : GrayAlphaTraceInv N k t) :
    ∃ t', gray_alpha_pixel_traced pixels t = some t' ∧ GrayAlphaTraceInv N (k + 1) t' := by
  obtain ⟨⟨s, d, dest⟩, r, w⟩ := t
  obtain ⟨hs, hd, hl, hr, hw⟩ := hP
  simp only at hs hd hl hr hw
  subst hs hd hr hw
  have hv : pixels[2 * k]? = some pixels[2 * k] := List.getElem?_eq_getElem (by omega)
  have ha : pixels[2 * k + 1]? = some pixels[2 * k + 1] :=
    List.getElem?_eq_getElem (by omega)
  refine ⟨_, gray_alpha_pixel_traced_some hv ha (by omega), by simp only; omega,
    by simp only; omega, ?_, ?_, ?_⟩
  · simp only [List.length_set]; exact hl
  · show _ = List.range (2 * k + 1 + 1)
    rw [List.range_succ, List.range_succ]
  · show _ = List.range (4 * k + 1 + 1 + 1 + 1)
    rw [List.range_succ, List.range_succ, List.range_succ, List.range_succ]

/-- The traced gray loops without alpha, run on a fresh destination of `3 * (W * H)`
cells, return with the access invariant for all `W * H` pixels, and their final
cursor is that of the plain loops. -/
theorem gray_traced_run (pixels : List Nat) (W H : Nat) (hpix : pixels.length = W * H) :
    ∃ t, for_loop_traced H (for_loop_traced W (gray_pixel_traced pixels))
        ⟨⟨0, 0, List.replicate (3 * (W * H)) none⟩, [], []⟩ = some t ∧
      GrayTraceInv (3 * (W * H)) (W * H) t ∧
      for_loop H (for_loop W (gray_pixel pixels))
        ⟨0, 0, List.replicate (3 * (W * H)) none⟩ = some t.cursor := by
  obtain ⟨t, hrun, hinv⟩ := nested_traced_inv (GrayTraceInv (3 * (W * H)))
    (gray_pixel_traced pixels) W H (gray_pixel_traced_inv hpix rfl)
    ⟨⟨0, 0, List.replicate (3 * (W * H)) none⟩, [], []⟩
    ⟨rfl, rfl, List.length_replicate _ _, rfl, rfl⟩
  refine ⟨t, hrun, hinv, ?_⟩
  have herase := for_loop_traced_cursor (for_loop_traced W (gray_pixel_traced pixels))
    (for_loop W (gray_pixel pixels))
    (for_loop_traced_cursor _ _ (gray_pixel_traced_cursor pixels) W) H
    ⟨⟨0, 0, List.replicate (3 * (W * H)) none⟩, [], []⟩
  rw [hrun] at herase
  exact herase.symm

/-- The traced gray loops with alpha, run on a fresh destination of `4 * (W * H)`
cells, return with the access invariant for all `W * H` pixels, and their final
cursor is that of the plain loops. -/
theorem gray_alpha_traced_run (pixels : List Nat) (W H : Nat)
    (hpix : pixels.length = 2 * (W * H)) :
    ∃ t, for_loop_traced H (for_loop_traced W (gray_alpha_pixel_traced pixels))
        ⟨⟨0, 0, List.replicate (4 * (W * H)) none⟩, [], []⟩ = some t ∧
      GrayAlphaTraceInv (4 * (W * H)) (W * H) t ∧
      for_loop H (for_loop W (gray_alpha_pixel pixels))
        ⟨0, 0, List.replicate (4 * (W * H)) none⟩ = some t.cursor := by
  obtain ⟨t, hrun, hinv⟩ := nested_traced_inv (GrayAlphaTraceInv (4 * (W * H)))
    (gray_alpha_pixel_traced pixels) W H (gray_alpha_pixel_traced_inv hpix rfl)
    ⟨⟨0, 0, List.replicate (4 * (W * H)) none⟩, [], []⟩
    ⟨rfl, rfl, List.length_replicate _ _, rfl, rfl⟩
  refine ⟨t, hrun, hinv, ?_⟩
  have herase := for_loop_traced_cursor (for_loop_traced W (gray_alpha_pixel_traced pixels))
    (for_loop W (gray_alpha_pixel pixels))
    (for_loop_traced_cursor _ _ (gray_alpha_pixel_traced_cursor pixels) W) H
    ⟨⟨0, 0, List.replicate (4 * (W * H)) none⟩, [], []⟩
  rw [hrun] at herase
  exact herase.symm

/-! ## The tile grid in `unsigned int` arithmetic: claims C1, C2, C5, C6 and C11 -/

/-- Once its four calls of `tile_log2` have returned, the 32-bit `avifplugin_set_tiles`
is one run of the recursive splitter from the grid `(minLog2TileCols, 0)`, with the
locals computed in 32-bit arithmetic. -/
theorem set_tiles_u32_of_u32_locals {W H a mc mr b : Nat} (e : avifEncoder)
    (ha : minLog2TileCols_u32 W = some a)
    (hmc : maxLog2Tile_u32 W MAX_TILE_COLS = some mc)
    (hmr : maxLog2Tile_u32 H MAX_TILE_ROWS = some mr)
    (hb : tile_log2_u32 (MAX_TILE_AREA >>> 14)
      ((sbCount_u32 H * sbCount_u32 W) % 2 ^ 32) = some b) :
    avifplugin_set_tiles_u32 W H e =
      some (avifplugin_set_tiles_recursive (W >>> a) H (Max a b - a) mc mr ⟨a, 0⟩) := by
  have ha' : tile_log2_u32 (MAX_TILE_WIDTH >>> (5 + 2))
      ((((2 * (((W + 7) % 2 ^ 32) >>> 3)) % 2 ^ 32 + 31) % 2 ^ 32) >>> 5) = some a := ha
  have hmc' : tile_log2_u32 1
      (Min ((((2 * (((W + 7) % 2 ^ 32) >>> 3)) % 2 ^ 32 + 31) % 2 ^ 32) >>> 5) MAX_TILE_COLS)
      = some mc := hmc
  have hmr' : tile_log2_u32 1
      (Min ((((2 * (((H + 7) % 2 ^ 32) >>> 3)) % 2 ^ 32 + 31) % 2 ^ 32) >>> 5) MAX_TILE_ROWS)
      = some mr := hmr
  have hb' : tile_log2_u32 (MAX_TILE_AREA >>> (2 * (5 + 2)))
      ((((((2 * (((H + 7) % 2 ^ 32) >>> 3)) % 2 ^ 32 + 31) % 2 ^ 32) >>> 5) *
        ((((2 * (((W + 7) % 2 ^ 32) >>> 3)) % 2 ^ 32 + 31) % 2 ^ 32) >>> 5)) % 2 ^ 32)
      = some b := hb
  simp only [avifplugin_set_tiles_u32, ha', hmc', hmr', hb', Option.bind_eq_bind,
    Option.some_bind, Option.pure_def]
  by_cases hgt : Max a b > a
  · rw [if_pos hgt]
  · rw [if_neg hgt]
    have h0 : Max a b - a = 0 := by omega
    rw [h0]
    simp [avifplugin_set_tiles_recursive]

/-- For `FrameWidth` and `FrameHeight` up to `2^32 - 8` whose superblock counts have a
product of at most `576 * 2^22`, every local of the 32-bit `avifplugin_set_tiles` and
its result are those of the computation over the natural numbers. -/
theorem u32_in_range {W H : Nat} (hW : W ≤ 2 ^ 32 - 8) (hH : H ≤ 2 ^ 32 - 8)
    (harea : ((W + 127) / 128) * ((H + 127) / 128) ≤ 576 * 2 ^ 22) :
    sbCount_u32 W = sbCount W ∧ sbCount_u32 H = sbCount H ∧
    minLog2TileCols_u32 W = minLog2TileCols W ∧
    maxLog2Tile_u32 W MAX_TILE_COLS = maxLog2Tile W MAX_TILE_COLS ∧
    maxLog2Tile_u32 H MAX_TILE_ROWS = maxLog2Tile H MAX_TILE_ROWS ∧
    minLog2Tiles_u32 W H = minLog2Tiles W H ∧
    ∀ e, avifplugin_set_tiles_u32 W H e = avifplugin_set_tiles W H e := by
  have h32 : (2 : Nat) ^ 32 = 4294967296 := by norm_num
  have h22 : 576 * (2 : Nat) ^ 22 = 2415919104 := by norm_num
  rw [h32] at hW hH
  rw [h22] at harea
  have hW7 : W + 7 < 2 ^ 32 := by rw [h32]; omega
  have hH7 : H + 7 < 2 ^ 32 := by rw [h32]; omega
  have hsW := sbCount_u32_eq hW7
  have hsH := sbCount_u32_eq hH7
  have hcW : sbCount W ≤ 33554432 := by rw [sbCount_eq]; omega
  have hprod : sbCount H * sbCount W ≤ 2415919104 := by
    rw [sbCount_eq, sbCount_eq, Nat.mul_comm]; exact harea
  have hprod32 : sbCount H * sbCount W < 2 ^ 32 := by rw [h32]; omega
  obtain ⟨a, mc, mr, b, ha, hmc, hmr, hb⟩ := set_tiles_locals W H
  obtain ⟨ua, _, _⟩ := tile_log2_u32_of_bound (m := 20) ha (by decide) (by decide)
    (by
      have h20 : (MAX_TILE_WIDTH >>> 7) <<< 20 = 33554432 := by decide
      rw [h20]; exact hcW)
  obtain ⟨umc, _, _⟩ := tile_log2_u32_of_bound (m := 6) hmc (by decide)
    (by decide) (Min_le_right _ _)
  obtain ⟨umr, _, _⟩ := tile_log2_u32_of_bound (m := 6) hmr (by decide)
    (by decide) (Min_le_right _ _)
  obtain ⟨ub, _, _⟩ := tile_log2_u32_of_bound (m := 22) hb (by decide) (by decide)
    (by
      have h576 : (MAX_TILE_AREA >>> 14) <<< 22 = 2415919104 := by decide
      rw [h576]; exact hprod)
  have hua : minLog2TileCols_u32 W = some a := by
    unfold minLog2TileCols_u32; rw [hsW]; exact ua
  have humc : maxLog2Tile_u32 W MAX_TILE_COLS = some mc := by
    unfold maxLog2Tile_u32; rw [hsW]; exact umc
  have humr : maxLog2Tile_u32 H MAX_TILE_ROWS = some mr := by
    unfold maxLog2Tile_u32; rw [hsH]; exact umr
  have hub : tile_log2_u32 (MAX_TILE_AREA >>> 14)
      ((sbCount_u32 H * sbCount_u32 W) % 2 ^ 32) = some b := by
    rw [hsW, hsH, Nat.mod_eq_of_lt hprod32]; exact ub
  refine ⟨hsW, hsH, hua.trans ha.symm, humc.trans hmc.symm, humr.trans hmr.symm, ?_, ?_⟩
  · rw [minLog2Tiles_of_locals ha hb]
    simp only [minLog2Tiles_u32, hua, hub, Option.bind_eq_bind, Option.some_bind,
      Option.pure_def]
  · intro e
    rw [set_tiles_u32_of_u32_locals e hua humc humr hub, set_tiles_of_locals e ha hmc hmr hb]

/-- C1, as stated, fails: for a frame of 262145 x 1 pixels (2049 superblock columns)
the 32-bit `avifplugin_set_tiles` returns `tileColsLog2 = 7` while
`maxLog2TileCols = 6`. -/
theorem set_tiles_u32_cols_exceed_cap :
    ∃ enc mc, avifplugin_set_tiles_u32 262145 1 ⟨0, 0⟩ = some enc ∧
      maxLog2Tile_u32 262145 MAX_TILE_COLS = some mc ∧ ¬ enc.tileColsLog2 ≤ mc :=
  ⟨⟨7, 0⟩, 6, by decide, by decide, by decide⟩

/-- C1 (amended): for `FrameWidth` and `FrameHeight` up to `2^32 - 8` whose superblock
counts have a product of at most `576 * 2^22`, the 32-bit `avifplugin_set_tiles`
returns; `tileRowsLog2` is at most `maxLog2TileRows`; `tileColsLog2` is at most the
larger of `minLog2TileCols` and `maxLog2TileCols`, hence at most `maxLog2TileCols`
whenever `minLog2TileCols ≤ maxLog2TileCols`, which is the case for every width up to
262144. -/
theorem set_tiles_u32_within_caps (W H : Nat) (e : avifEncoder)
    (hW : W ≤ 2 ^ 32 - 8) (hH : H ≤ 2 ^ 32 - 8)
    (harea : ((W + 127) / 128) * ((H + 127) / 128) ≤ 576 * 2 ^ 22) :
    ∃ enc a mc mr, avifplugin_set_tiles_u32 W H e = some enc ∧
      minLog2TileCols_u32 W = some a ∧
      maxLog2Tile_u32 W MAX_TILE_COLS = some mc ∧
      maxLog2Tile_u32 H MAX_TILE_ROWS = some mr ∧
      enc.tileRowsLog2 ≤ mr ∧
      enc.tileColsLog2 ≤ max a mc ∧
      (a ≤ mc → enc.tileColsLog2 ≤ mc) ∧
      (W ≤ 262144 → a ≤ mc) := by
  obtain ⟨_, _, h1, h2, h3, _, h5⟩ := u32_in_range hW hH harea
  rw [h1, h2, h3, h5 e]
  exact set_tiles_within_caps_nat W H e

theorem set_tiles_u32_within_caps_witness :
    (20000 : Nat) ≤ 2 ^ 32 - 8 ∧
    ((20000 + 127) / 128) * ((20000 + 127) / 128) ≤ 576 * 2 ^ 22 ∧
    avifplugin_set_tiles_u32 20000 20000 ⟨0, 0⟩ = some ⟨3, 3⟩ ∧
    ∃ enc mc mr, avifplugin_set_tiles_u32 20000 20000 ⟨0, 0⟩ = some enc ∧
      maxLog2Tile_u32 20000 MAX_TILE_COLS = some mc ∧
      maxLog2Tile_u32 20000 MAX_TILE_ROWS = some mr ∧
      enc.tileColsLog2 ≤ mc ∧ enc.tileRowsLog2 ≤ mr := by
  refine ⟨by decide, by decide, by decide, ?_⟩
  obtain ⟨enc, a, mc, mr, h1, _, h3, h4, h5, _, h7, h8⟩ :=
    set_tiles_u32_within_caps 20000 20000 ⟨0, 0⟩ (by decide) (by decide) (by decide)
  exact ⟨enc, mc, mr, h1, h3, h4, h7 (h8 (by decide)), h5⟩

/-- C2, as stated, fails: for a frame of 196609 x 196609 pixels (1537 x 1537
superblocks) the 32-bit `avifplugin_set_tiles` returns the grid `(6, 6)` although
`minLog2Tiles = 13`, and `576 << 12` is less than the superblock area. -/
theorem set_tiles_u32_sum_below_min :
    ∃ enc m, avifplugin_set_tiles_u32 196609 196609 ⟨0, 0⟩ = some enc ∧
      minLog2Tiles_u32 196609 196609 = some m ∧
      enc.tileColsLog2 + enc.tileRowsLog2 < m ∧
      576 <<< (enc.tileColsLog2 + enc.tileRowsLog2) <
        sbCount_u32 196609 * sbCount_u32 196609 :=
  ⟨⟨6, 6⟩, 13, by decide, by decide, by decide, by decide⟩

/-- C2 (amended): for `FrameWidth` and `FrameHeight` up to `2^32 - 8` whose superblock
counts have a product of at most `576 * 2^22`, the 32-bit `avifplugin_set_tiles`
returns, and the sum `tileColsLog2 + tileRowsLog2` reaches `minLog2Tiles` exactly when
the caps leave room for it, that is when
`minLog2Tiles ≤ max minLog2TileCols maxLog2TileCols + maxLog2TileRows`; reaching
`minLog2Tiles` is the same as `576 << (tileColsLog2 + tileRowsLog2) ≥ sbRows * sbCols`;
and the caps leave room for every frame up to 196608 x 196608 pixels. -/
theorem set_tiles_u32_sum_reaches_min (W H : Nat) (e : avifEncoder)
    (hW : W ≤ 2 ^ 32 - 8) (hH : H ≤ 2 ^ 32 - 8)
    (harea : ((W + 127) / 128) * ((H + 127) / 128) ≤ 576 * 2 ^ 22) :
    ∃ enc a mc mr m, avifplugin_set_tiles_u32 W H e = some enc ∧
      minLog2TileCols_u32 W = some a ∧
      maxLog2Tile_u32 W MAX_TILE_COLS = some mc ∧
      maxLog2Tile_u32 H MAX_TILE_ROWS = some mr ∧
      minLog2Tiles_u32 W H = some m ∧
      (m ≤ enc.tileColsLog2 + enc.tileRowsLog2 ↔ m ≤ max a mc + mr) ∧
      (m ≤ enc.tileColsLog2 + enc.tileRowsLog2 ↔
        sbCount_u32 H * sbCount_u32 W ≤ 576 <<< (enc.tileColsLog2 + enc.tileRowsLog2)) ∧
      (W ≤ 196608 → H ≤ 196608 → m ≤ enc.tileColsLog2 + enc.tileRowsLog2) := by
  obtain ⟨s1, s2, h1, h2, h3, h4, h5⟩ := u32_in_range hW hH harea
  rw [s1, s2, h1, h2, h3, h4, h5 e]
  exact set_tiles_sum_reaches_min_nat W H e

theorem set_tiles_u32_sum_reaches_min_witness :
    (20000 : Nat) ≤ 2 ^ 32 - 8 ∧
    ((20000 + 127) / 128) * ((20000 + 127) / 128) ≤ 576 * 2 ^ 22 ∧
    avifplugin_set_tiles_u32 20000 20000 ⟨0, 0⟩ = some ⟨3, 3⟩ ∧
    ∃ enc m, avifplugin_set_tiles_u32 20000 20000 ⟨0, 0⟩ = some enc ∧
      minLog2Tiles_u32 20000 20000 = some m ∧
      m ≤ enc.tileColsLog2 + enc.tileRowsLog2 ∧
      sbCount_u32 20000 * sbCount_u32 20000 ≤
        576 <<< (enc.tileColsLog2 + enc.tileRowsLog2) := by
  refine ⟨by decide, by decide, by decide, ?_⟩
  obtain ⟨enc, a, mc, mr, m, h1, _, _, _, h5, _, h7, h8⟩ :=
    set_tiles_u32_sum_reaches_min 20000 20000 ⟨0, 0⟩ (by decide) (by decide) (by decide)
  have hm := h8 (by decide) (by decide)
  exact ⟨enc, m, h1, h5, hm, h7.mp hm⟩

/-- C5, as stated, fails: for a frame of 4294967295 x 1 pixels `FrameWidth + 7` wraps,
and the 32-bit `avifplugin_set_tiles` returns `tileColsLog2 = 0` for a width above
4096, which is not covered by one tile of `MAX_TILE_WIDTH` pixels. -/
theorem set_tiles_u32_no_column_split :
    ∃ enc, avifplugin_set_tiles_u32 4294967295 1 ⟨0, 0⟩ = some enc ∧
      (4096 : Nat) < 4294967295 ∧ ¬ 1 ≤ enc.tileColsLog2 ∧
      ¬ 4294967295 ≤ MAX_TILE_WIDTH <<< enc.tileColsLog2 :=
  ⟨⟨0, 0⟩, by decide, by decide, by decide, by decide⟩

/-- C5 (amended): for `FrameWidth` and `FrameHeight` up to `2^32 - 8` whose superblock
counts have a product of at most `576 * 2^22`, the 32-bit `avifplugin_set_tiles`
returns with `tileColsLog2 ≥ minLog2TileCols` and `32 << tileColsLog2 ≥ sbCols`; so the
frame is at most `MAX_TILE_WIDTH << tileColsLog2` pixels wide, and every width above
4096 gets at least one column split. -/
theorem set_tiles_u32_cols_cover_width (W H : Nat) (e : avifEncoder)
    (hW : W ≤ 2 ^ 32 - 8) (hH : H ≤ 2 ^ 32 - 8)
    (harea : ((W + 127) / 128) * ((H + 127) / 128) ≤ 576 * 2 ^ 22) :
    ∃ enc a, avifplugin_set_tiles_u32 W H e = some enc ∧
      minLog2TileCols_u32 W = some a ∧
      a ≤ enc.tileColsLog2 ∧
      sbCount_u32 W ≤ 32 <<< enc.tileColsLog2 ∧
      W ≤ MAX_TILE_WIDTH <<< enc.tileColsLog2 ∧
      (4096 < W → 1 ≤ enc.tileColsLog2) := by
  obtain ⟨s1, _, h1, _, _, _, h5⟩ := u32_in_range hW hH harea
  rw [s1, h1, h5 e]
  exact set_tiles_cols_cover_width_nat W H e

theorem set_tiles_u32_cols_cover_width_witness :
    (5000 : Nat) ≤ 2 ^ 32 - 8 ∧ (3000 : Nat) ≤ 2 ^ 32 - 8 ∧
    ((5000 + 127) / 128) * ((3000 + 127) / 128) ≤ 576 * 2 ^ 22 ∧
    (4096 : Nat) < 5000 ∧
    ∃ enc, avifplugin_set_tiles_u32 5000 3000 ⟨0, 0⟩ = some enc ∧
      sbCount_u32 5000 ≤ 32 <<< enc.tileColsLog2 ∧ 1 ≤ enc.tileColsLog2 := by
  refine ⟨by decide, by decide, by decide, by decide, ?_⟩
  obtain ⟨enc, a, h1, _, _, h4, _, h6⟩ :=
    set_tiles_u32_cols_cover_width 5000 3000 ⟨0, 0⟩ (by decide) (by decide) (by decide)
  exact ⟨enc, h1, h4, h6 (by decide)⟩

/-- C6, as stated, fails: at height 536870912 the product `sbRows * sbCols` wraps to 0
for width 131072, and the 32-bit `avifplugin_set_tiles` returns `tileColsLog2 = 5`
there, less than the `tileColsLog2 = 6` it returns for the smaller width 64000. -/
theorem set_tiles_u32_not_monotone :
    ∃ enc1 enc2, avifplugin_set_tiles_u32 64000 536870912 ⟨0, 0⟩ = some enc1 ∧
      avifplugin_set_tiles_u32 131072 536870912 ⟨0, 0⟩ = some enc2 ∧
      (64000 : Nat) ≤ 131072 ∧ ¬ enc1.tileColsLog2 ≤ enc2.tileColsLog2 :=
  ⟨⟨6, 6⟩, ⟨5, 0⟩, by decide, by decide, by decide, by decide⟩

/-- C6 (amended): for a height `h` and widths `w1 ≤ w2`, all up to `2^32 - 8`, such that
the superblock counts of `w2` and `h` have a product of at most `576 * 2^22` (every
frame up to 262144 x 262144 qualifies), the 32-bit `avifplugin_set_tiles` returns for
both frames and the `tileColsLog2` for `(w2, h)` is at least the one for `(w1, h)`. -/
theorem set_tiles_u32_cols_monotone (h w1 w2 : Nat) (e1 e2 : avifEncoder) (hw : w1 ≤ w2)
    (hw2 : w2 ≤ 2 ^ 32 - 8) (hh : h ≤ 2 ^ 32 - 8)
    (harea : ((w2 + 127) / 128) * ((h + 127) / 128) ≤ 576 * 2 ^ 22) :
    ∃ enc1 enc2, avifplugin_set_tiles_u32 w1 h e1 = some enc1 ∧
      avifplugin_set_tiles_u32 w2 h e2 = some enc2 ∧
      enc1.tileColsLog2 ≤ enc2.tileColsLog2 := by
  have harea1 : ((w1 + 127) / 128) * ((h + 127) / 128) ≤ 576 * 2 ^ 22 :=
    Nat.le_trans (Nat.mul_le_mul_right _ (Nat.div_le_div_right (by omega))) harea
  obtain ⟨_, _, _, _, _, _, hA⟩ := u32_in_range (Nat.le_trans hw hw2) hh harea1
  obtain ⟨_, _, _, _, _, _, hB⟩ := u32_in_range hw2 hh harea
  rw [hA e1, hB e2]
  exact set_tiles_cols_monotone_nat h w1 w2 e1 e2 hw

theorem set_tiles_u32_cols_monotone_witness :
    (4096 : Nat) ≤ 4097 ∧ (4097 : Nat) ≤ 2 ^ 32 - 8 ∧ (9000 : Nat) ≤ 2 ^ 32 - 8 ∧
    ((4097 + 127) / 128) * ((9000 + 127) / 128) ≤ 576 * 2 ^ 22 ∧
    ∃ enc1 enc2, avifplugin_set_tiles_u32 4096 9000 ⟨0, 0⟩ = some enc1 ∧
      avifplugin_set_tiles_u32 4097 9000 ⟨0, 0⟩ = some enc2 ∧
      enc1.tileColsLog2 ≤ enc2.tileColsLog2 :=
  ⟨by decide, by decide, by decide, by decide,
    set_tiles_u32_cols_monotone 9000 4096 4097 ⟨0, 0⟩ ⟨0, 0⟩ (by decide) (by decide)
      (by decide) (by decide)⟩

/-- C11, as stated, fails: for a frame of 262144 x 192000000 pixels
`minLog2TileCols = maxLog2TileCols = 6`, yet the 32-bit `avifplugin_set_tiles` has no
result: `tile_log2 (576, 3072000000)` shifts until the shift amount is 32. -/
theorem set_tiles_u32_no_result :
    minLog2TileCols_u32 262144 = some 6 ∧
    maxLog2Tile_u32 262144 MAX_TILE_COLS = some 6 ∧
    (sbCount_u32 192000000 * sbCount_u32 262144) % 2 ^ 32 = 3072000000 ∧
    tile_log2_u32 (MAX_TILE_AREA >>> 14) 3072000000 = none ∧
    avifplugin_set_tiles_u32 262144 192000000 ⟨0, 0⟩ = none :=
  ⟨by decide, by decide, by decide, by decide, by decide⟩

/-- C11 (amended): for `FrameWidth` and `FrameHeight` up to `2^32 - 8` whose superblock
counts have a product of at most `576 * 2^22`, and with
`minLog2TileCols ≤ maxLog2TileCols`, the 32-bit `avifplugin_set_tiles` returns a grid
with `tileColsLog2 + tileRowsLog2 = min minLog2Tiles (maxLog2TileCols +
maxLog2TileRows)`; so it never makes more splits than `minLog2Tiles`, and if it makes
fewer then `tileColsLog2 = maxLog2TileCols` and `tileRowsLog2 = maxLog2TileRows`. -/
theorem set_tiles_u32_sum_exact (W H : Nat) (e : avifEncoder)
    (hW : W ≤ 2 ^ 32 - 8) (hH : H ≤ 2 ^ 32 - 8)
    (harea : ((W + 127) / 128) * ((H + 127) / 128) ≤ 576 * 2 ^ 22) :
    ∃ enc a mc mr m, avifplugin_set_tiles_u32 W H e = some enc ∧
      minLog2TileCols_u32 W = some a ∧
      maxLog2Tile_u32 W MAX_TILE_COLS = some mc ∧
      maxLog2Tile_u32 H MAX_TILE_ROWS = some mr ∧
      minLog2Tiles_u32 W H = some m ∧
      (a ≤ mc →
        enc.tileColsLog2 + enc.tileRowsLog2 = min m (mc + mr) ∧
        enc.tileColsLog2 + enc.tileRowsLog2 ≤ m ∧
        (enc.tileColsLog2 + enc.tileRowsLog2 < m →
          enc.tileColsLog2 = mc ∧ enc.tileRowsLog2 = mr)) := by
  obtain ⟨_, _, h1, h2, h3, h4, h5⟩ := u32_in_range hW hH harea
  rw [h1, h2, h3, h4, h5 e]
  exact set_tiles_sum_exact_nat W H e

theorem set_tiles_u32_sum_exact_witness :
    (196609 : Nat) ≤ 2 ^ 32 - 8 ∧
    ((196609 + 127) / 128) * ((196609 + 127) / 128) ≤ 576 * 2 ^ 22 ∧
    ∃ enc mc mr m, avifplugin_set_tiles_u32 196609 196609 ⟨0, 0⟩ = some enc ∧
      maxLog2Tile_u32 196609 MAX_TILE_COLS = some mc ∧
      maxLog2Tile_u32 196609 MAX_TILE_ROWS = some mr ∧
      minLog2Tiles_u32 196609 196609 = some m ∧
      enc.tileColsLog2 + enc.tileRowsLog2 = min m (mc + mr) ∧
      enc.tileColsLog2 + enc.tileRowsLog2 < m ∧
      enc.tileColsLog2 = mc ∧ enc.tileRowsLog2 = mr := by
  refine ⟨by decide, by decide, ?_⟩
  obtain ⟨enc, a, mc, mr, m, h1, h2, h3, h4, h5, h6⟩ :=
    set_tiles_u32_sum_exact 196609 196609 ⟨0, 0⟩ (by decide) (by decide) (by decide)
  have ha : a = 6 := Option.some.inj (h2.symm.trans (by decide))
  have hmc : mc = 6 := Option.some.inj (h3.symm.trans (by decide))
  have hmr : mr = 6 := Option.some.inj (h4.symm.trans (by decide))
  have hm : m = 13 := Option.some.inj (h5.symm.trans (by decide))
  obtain ⟨k1, k2, k3⟩ := h6 (by omega)
  have hlt : enc.tileColsLog2 + enc.tileRowsLog2 < m := by
    rw [k1, hm, hmc, hmr]; decide
  exact ⟨enc, mc, mr, m, h1, h3, h4, h5, k1, hlt, k3 hlt⟩

/-! ## The RGB image with a 32-bit row size: claims C7 and C9 -/

/-- As long as the row size does not wrap, `save_layer_rgb_u32` is `save_layer_rgb`. -/
theorem save_layer_rgb_u32_eq (is_gray save_alpha usesU16 : Bool) (W H : Nat)
    (pixels : List Nat)
    (hfit : W * (if save_alpha then 4 else 3) * (if usesU16 then 2 else 1) < 2 ^ 32) :
    save_layer_rgb_u32 is_gray save_alpha usesU16 W H pixels =
      save_layer_rgb is_gray save_alpha usesU16 W H pixels := by
  cases save_alpha <;> cases usesU16
  · have hm : (W * 3) % 2 ^ 32 = W * 3 := Nat.mod_eq_of_lt (by simpa using hfit)
    simp only [save_layer_rgb_u32, save_layer_rgb, hm, Bool.false_eq_true, if_false, if_true]
  · have hm : (W * 6) % 2 ^ 32 = W * 6 :=
      Nat.mod_eq_of_lt (by simp only [Bool.false_eq_true, if_false, if_true] at hfit; omega)
    simp only [save_layer_rgb_u32, save_layer_rgb, hm, Bool.false_eq_true, if_false, if_true]
  · have hm : (W * 4) % 2 ^ 32 = W * 4 := Nat.mod_eq_of_lt (by simpa using hfit)
    simp only [save_layer_rgb_u32, save_layer_rgb, hm, Bool.false_eq_true, if_false, if_true]
  · have hm : (W * 8) % 2 ^ 32 = W * 8 :=
      Nat.mod_eq_of_lt (by simp only [if_true] at hfit; omega)
    simp only [save_layer_rgb_u32, save_layer_rgb, hm, Bool.false_eq_true, if_false, if_true]

/-- Whenever `save_layer_rgb_u32` returns an image, its `rowBytes` is the 32-bit
product of its branch. -/
theorem save_layer_rgb_u32_rowBytes {is_gray save_alpha usesU16 : Bool} {W H : Nat}
    {pixels : List Nat} {rgb : avifRGBImage}
    (h : save_layer_rgb_u32 is_gray save_alpha usesU16 W H pixels = some rgb) :
    rgb.rowBytes = rgb_rowBytes_u32 save_alpha usesU16 W := by
  cases is_gray <;> cases save_alpha <;> cases usesU16 <;>
    simp only [save_layer_rgb_u32, rgb_rowBytes_u32, Bool.false_eq_true, if_false, if_true,
      Option.map_eq_some', Option.some.injEq] at h ⊢
  all_goals first
    | (rw [← h])
    | (obtain ⟨c, _, hc⟩ := h
       rw [← hc])

/-- A loop of at least one pass whose first pass has no result has no result. -/
theorem for_loop_none (n : Nat) (body : GrayCursor → Option GrayCursor) (c : GrayCursor)
    (hn : 0 < n) (hbody : body c = none) : for_loop n body c = none := by
  cases n with
  | zero => omega
  | succ m => rw [for_loop, hbody]; rfl

/-- With a destination of two cells the third write of the first pixel is past its
end. -/
theorem gray_pixel_two_cells {pixels : List Nat} {v : Nat} (hv : pixels[0]? = some v) :
    gray_pixel pixels ⟨0, 0, [none, none]⟩ = none := by
  simp [gray_pixel, read_src, write_dest, hv]

/-- With a destination of one cell the second write of the first pixel is past its
end. -/
theorem gray_pixel_one_cell {pixels : List Nat} {v : Nat} (hv : pixels[0]? = some v) :
    gray_pixel pixels ⟨0, 0, [none]⟩ = none := by
  simp [gray_pixel, read_src, write_dest, hv]

/-- C7, as stated, fails: an 8-bit gray drawable of 1431655766 x 1 pixels has a source
of `W * H` samples whose size fits `gint`, but `rgb.rowBytes = rgb.width * 3` wraps to
2, the destination has 2 cells instead of `3 * W * H`, and the third write of the first
pixel is past its end, so `save_layer_rgb_u32` has no result. -/
theorem gray_export_overruns :
    (List.replicate 1431655766 0).length = 1431655766 * 1 ∧
    gray_pixels_bytes false false 1431655766 1 = some 1431655766 ∧
    g_malloc_n 1 ((1431655766 * 3) % 2 ^ 32) 1 = [none, none] ∧
    save_layer_rgb_u32 true false false 1431655766 1 (List.replicate 1431655766 0) = none := by
  have hd : g_malloc_n 1 ((1431655766 * 3) % 2 ^ 32) 1 = [none, none] := by decide
  refine ⟨List.length_replicate _ _, by decide, hd, ?_⟩
  have hv : (List.replicate 1431655766 0)[0]? = some 0 := by
    rw [List.getElem?_replicate, if_pos (by decide)]
  have hrow := for_loop_none 1431655766 (gray_pixel (List.replicate 1431655766 0))
    ⟨0, 0, [none, none]⟩ (by decide) (gray_pixel_two_cells hv)
  have hall := for_loop_none 1 (for_loop 1431655766
    (gray_pixel (List.replicate 1431655766 0))) ⟨0, 0, [none, none]⟩ (by decide) hrow
  simp only [save_layer_rgb_u32, Bool.false_eq_true, if_false, if_true, hd, hall,
    Option.map_none']

/-- C7 (amended): gray without alpha, for the 8-bit and the 16-bit path alike, as long
as the row size `W * 3` bytes (8-bit) or `W * 6` bytes (wide) is below `2^32`: for a
source of `W * H` samples `save_layer` produces a destination of exactly `3 * W * H`
samples, and for every pixel `p` the samples at `3p`, `3p + 1` and `3p + 2` are the
source sample `p`, unchanged. -/
theorem gray_export_u32_replicates (usesU16 : Bool) (W H : Nat) (pixels : List Nat)
    (hpix : pixels.length = W * H)
    (hfit : W * 3 * (if usesU16 then 2 else 1) < 2 ^ 32) :
    ∃ rgb, save_layer_rgb_u32 true false usesU16 W H pixels = some rgb ∧
      rgb.pixels.length = 3 * W * H ∧
      ∀ p, p < W * H → ∃ s, pixels[p]? = some s ∧
        rgb.pixels[3 * p]? = some (some s) ∧
        rgb.pixels[3 * p + 1]? = some (some s) ∧
        rgb.pixels[3 * p + 2]? = some (some s) := by
  rw [save_layer_rgb_u32_eq true false usesU16 W H pixels (by simpa using hfit)]
  exact gray_export_replicates_nat usesU16 W H pixels hpix

theorem gray_export_u32_replicates_witness :
    ([200] : List Nat).length = 1 * 1 ∧
    1 * 3 * (if false then 2 else 1) < 2 ^ 32 ∧
    ∃ rgb, save_layer_rgb_u32 true false false 1 1 [200] = some rgb ∧
      rgb.pixels.length = 3 * 1 * 1 ∧
      rgb.pixels[0]? = some (some 200) ∧
      rgb.pixels[1]? = some (some 200) ∧
      rgb.pixels[2]? = some (some 200) := by
  refine ⟨rfl, by decide, ?_⟩
  obtain ⟨rgb, h1, h2, h3⟩ := gray_export_u32_replicates false 1 1 [200] rfl (by decide)
  obtain ⟨s, hs, c0, c1, c2⟩ := h3 0 (by decide)
  have h200 : s = 200 := by simpa using hs.symm
  subst h200
  exact ⟨rgb, h1, h2, c0, c1, c2⟩

/-- C9, as stated, fails: for a wide gray drawable of width 715827883, whose source of
one row fits `gint`, `rgb.rowBytes = rgb.width * 6` wraps to 2 instead of
`width * 3 * 2`; with no rows the image returned has `rowBytes = 2`, and with one row
the second write of the first pixel is past the end of the destination. -/
theorem rgb_row_stride_wraps :
    gray_pixels_bytes false true 715827883 1 = some 1431655766 ∧
    rgb_rowBytes_u32 false true 715827883 = 2 ∧
    ¬ rgb_rowBytes_u32 false true 715827883 = 715827883 * 3 * 2 ∧
    save_layer_rgb_u32 true false true 715827883 0 [] =
      some ⟨715827883, 0, 16, avifRGBFormat.AVIF_RGB_FORMAT_RGB, 2, []⟩ ∧
    save_layer_rgb_u32 true false true 715827883 1 (List.replicate 715827883 0) = none := by
  refine ⟨by decide, by decide, by decide, by decide, ?_⟩
  have hd : g_malloc_n 1 ((715827883 * 6) % 2 ^ 32) 2 = [none] := by decide
  have hv : (List.replicate 715827883 0)[0]? = some 0 := by
    rw [List.getElem?_replicate, if_pos (by decide)]
  have hrow := for_loop_none 715827883 (gray_pixel (List.replicate 715827883 0))
    ⟨0, 0, [none]⟩ (by decide) (gray_pixel_one_cell hv)
  have hall := for_loop_none 1 (for_loop 715827883
    (gray_pixel (List.replicate 715827883 0))) ⟨0, 0, [none]⟩ (by decide) hrow
  simp only [save_layer_rgb_u32, Bool.false_eq_true, if_false, if_true, hd, hall,
    Option.map_none']

/-- C9 (amended): in each of the eight combinations of gray or colour, alpha or not,
8-bit or wide, and for every width whose product `width * channels * bytesPerSample`
is below `2^32`, `save_layer` sets `rgb.rowBytes = width * channels * bytesPerSample`
with four channels and format RGBA when `save_alpha` holds, three channels and format
RGB otherwise, one byte per sample and depth 8 for 8-bit, two bytes and depth 16 for
wide.  For a gray drawable the source holds one sample per pixel, or two with alpha. -/
theorem rgb_row_stride_u32 (is_gray save_alpha usesU16 : Bool) (W H : Nat)
    (pixels : List Nat)
    (hsrc : is_gray = true → pixels.length = (if save_alpha then 2 else 1) * (W * H))
    (hfit : W * (if save_alpha then 4 else 3) * (if usesU16 then 2 else 1) < 2 ^ 32) :
    ∃ rgb, save_layer_rgb_u32 is_gray save_alpha usesU16 W H pixels = some rgb ∧
      rgb.rowBytes = W * (if save_alpha then 4 else 3) * (if usesU16 then 2 else 1) ∧
      rgb.rowBytes = rgb_rowBytes_u32 save_alpha usesU16 W ∧
      rgb.format = (if save_alpha then avifRGBFormat.AVIF_RGB_FORMAT_RGBA
        else avifRGBFormat.AVIF_RGB_FORMAT_RGB) ∧
      rgb.depth = (if usesU16 then 16 else 8) ∧
      rgb.width = W ∧ rgb.height = H := by
  have heq := save_layer_rgb_u32_eq is_gray save_alpha usesU16 W H pixels hfit
  obtain ⟨rgb, h1, h2, h3, h4, h5, h6⟩ :=
    rgb_row_stride_nat is_gray save_alpha usesU16 W H pixels hsrc
  rw [← heq] at h1
  exact ⟨rgb, h1, h2, save_layer_rgb_u32_rowBytes h1, h3, h4, h5, h6⟩

theorem rgb_row_stride_u32_witness :
    (true = true → ([1, 2, 3, 4] : List Nat).length = (if true then 2 else 1) * (2 * 1)) ∧
    2 * (if true then 4 else 3) * (if true then 2 else 1) < 2 ^ 32 ∧
    ∃ rgb, save_layer_rgb_u32 true true true 2 1 [1, 2, 3, 4] = some rgb ∧
      rgb.rowBytes = 16 ∧
      rgb.format = avifRGBFormat.AVIF_RGB_FORMAT_RGBA ∧
      rgb.depth = 16 ∧ rgb.width = 2 ∧ rgb.height = 1 := by
  refine ⟨fun _ => rfl, by decide, ?_⟩
  obtain ⟨rgb, h1, h2, _, h4, h5, h6, h7⟩ :=
    rgb_row_stride_u32 true true true 2 1 [1, 2, 3, 4] (fun _ => rfl) (by decide)
  exact ⟨rgb, h1, h2, h4, h5, h6, h7⟩

/-! ## The memory accesses of the gray expansion: claim C13 -/

/-- As long as the row size does not wrap, the traced gray branch without alpha returns
with the access invariant; its final cursor satisfies the contents invariant and holds
the pixels of the image that `save_layer_rgb_u32` returns. -/
theorem save_layer_gray_traced_plain (usesU16 : Bool) (W H : Nat) (pixels : List Nat)
    (hpix : pixels.length = W * H)
    (hfit : W * 3 * (if usesU16 then 2 else 1) < 2 ^ 32) :
    ∃ t, save_layer_gray_traced false usesU16 W H pixels = some t ∧
      GrayTraceInv (3 * (W * H)) (W * H) t ∧
      GrayInv pixels (3 * (W * H)) (W * H) t.cursor ∧
      save_layer_rgb_u32 true false usesU16 W H pixels =
        some ⟨W, H, if usesU16 then 16 else 8, avifRGBFormat.AVIF_RGB_FORMAT_RGB,
          W * (if usesU16 then 6 else 3), t.cursor.dest⟩ := by
  obtain ⟨t, hrun, hinv, hplain⟩ := gray_traced_run pixels W H hpix
  obtain ⟨c', hc', hcinv⟩ := gray_loops_run pixels W H hpix
  have hc : c' = t.cursor := Option.some.inj (hc'.symm.trans hplain)
  subst hc
  refine ⟨t, ?_, hinv, hcinv, ?_⟩
  · cases usesU16
    · have hm : (W * 3) % 2 ^ 32 = W * 3 := Nat.mod_eq_of_lt (by simpa using hfit)
      simp only [save_layer_gray_traced, hm, Bool.false_eq_true, if_false, g_malloc_n_rgb8,
        hrun]
    · have hm : (W * 6) % 2 ^ 32 = W * 6 :=
        Nat.mod_eq_of_lt (by simp only [if_true] at hfit; omega)
      simp only [save_layer_gray_traced, hm, Bool.false_eq_true, if_false, if_true,
        g_malloc_n_rgb16, hrun]
  · cases usesU16
    · have hm : (W * 3) % 2 ^ 32 = W * 3 := Nat.mod_eq_of_lt (by simpa using hfit)
      simp only [save_layer_rgb_u32, hm, Bool.false_eq_true, if_false, if_true,
        g_malloc_n_rgb8, hplain, Option.map_some']
    · have hm : (W * 6) % 2 ^ 32 = W * 6 :=
        Nat.mod_eq_of_lt (by simp only [if_true] at hfit; omega)
      simp only [save_layer_rgb_u32, hm, Bool.false_eq_true, if_false, if_true,
        g_malloc_n_rgb16, hplain, Option.map_some']

/-- As long as the row size does not wrap, the traced gray branch with alpha returns
with the access invariant; its final cursor satisfies the contents invariant and holds
the pixels of the image that `save_layer_rgb_u32` returns. -/
theorem save_layer_gray_traced_alpha (usesU16 : Bool) (W H : Nat) (pixels : List Nat)
    (hpix : pixels.length = 2 * (W * H))
    (hfit : W * 4 * (if usesU16 then 2 else 1) < 2 ^ 32) :
    ∃ t, save_layer_gray_traced true usesU16 W H pixels = some t ∧
      GrayAlphaTraceInv (4 * (W * H)) (W * H) t ∧
      GrayAlphaInv pixels (4 * (W * H)) (W * H) t.cursor ∧
      save_layer_rgb_u32 true true usesU16 W H pixels =
        some ⟨W, H, if usesU16 then 16 else 8, avifRGBFormat.AVIF_RGB_FORMAT_RGBA,
          W * (if usesU16 then 8 else 4), t.cursor.dest⟩ := by
  obtain ⟨t, hrun, hinv, hplain⟩ := gray_alpha_traced_run pixels W H hpix
  obtain ⟨c', hc', hcinv⟩ := gray_alpha_loops_run pixels W H hpix
  have hc : c' = t.cursor := Option.some.inj (hc'.symm.trans hplain)
  subst hc
  refine ⟨t, ?_, hinv, hcinv, ?_⟩
  · cases usesU16
    · have hm : (W * 4) % 2 ^ 32 = W * 4 := Nat.mod_eq_of_lt (by simpa using hfit)
      simp only [save_layer_gray_traced, hm, Bool.false_eq_true, if_false, if_true,
        g_malloc_n_rgba8, hrun]
    · have hm : (W * 8) % 2 ^ 32 = W * 8 :=
        Nat.mod_eq_of_lt (by simp only [if_true] at hfit; omega)
      simp only [save_layer_gray_traced, hm, if_true, g_malloc_n_rgba16, hrun]
  · cases usesU16
    · have hm : (W * 4) % 2 ^ 32 = W * 4 := Nat.mod_eq_of_lt (by simpa using hfit)
      simp only [save_layer_rgb_u32, hm, Bool.false_eq_true, if_false, if_true,
        g_malloc_n_rgba8, hplain, Option.map_some']
    · have hm : (W * 8) % 2 ^ 32 = W * 8 :=
        Nat.mod_eq_of_lt (by simp only [if_true] at hfit; omega)
      simp only [save_layer_rgb_u32, hm, if_true, g_malloc_n_rgba16, hplain,
        Option.map_some']

/-- Number of samples in a destination of `H` rows of `W * c * bps` bytes, with `bps`
bytes per sample. -/
theorem dest_samples (W H c bps : Nat) (hbps : 0 < bps) :
    H * (W * (c * bps)) / bps = c * (W * H) := by
  have h : H * (W * (c * bps)) = c * (W * H) * bps := by ring
  rw [h, Nat.mul_div_cancel _ hbps]

/-- A traced loop of at least one pass whose first pass has no result has no result. -/
theorem for_loop_traced_none (n : Nat) (body : GrayTrace → Option GrayTrace) (t : GrayTrace)
    (hn : 0 < n) (hbody : body t = none) : for_loop_traced n body t = none := by
  cases n with
  | zero => omega
  | succ m => rw [for_loop_traced, hbody]; rfl

/-- With a destination of two cells the third write of the first pixel is past its
end. -/
theorem gray_pixel_traced_two_cells {pixels : List Nat} {v : Nat}
    (hv : pixels[0]? = some v) :
    gray_pixel_traced pixels ⟨⟨0, 0, [none, none]⟩, [], []⟩ = none := by
  simp [gray_pixel_traced, read_src_traced, write_dest_traced, read_src, write_dest, hv]

/-- The source size of a gray drawable, when it fits `gint`, is `c * W * H` samples,
with `c = 2` with alpha and `c = 1` without. -/
theorem gray_pixels_samples {save_alpha usesU16 : Bool} {W H bytes : Nat}
    (h : gray_pixels_bytes save_alpha usesU16 W H = some bytes) :
    bytes / (if usesU16 then 2 else 1) = (if save_alpha then 2 else 1) * (W * H) ∧
    bytes ≤ 2 ^ 31 - 1 := by
  cases save_alpha <;> cases usesU16 <;>
    simp only [gray_pixels_bytes, Bool.false_eq_true, if_false, if_true] at h ⊢
  all_goals
    split_ifs at h with hle
    cases h
    refine ⟨?_, hle⟩
    omega

/-- C13, as stated, fails: for an 8-bit gray drawable of 1431655766 x 1 pixels the
source size fits `gint` and the source holds `W * H` samples, but `rgb.rowBytes` wraps
to 2, `g_malloc_n` returns 2 cells, and the third write of the first pixel is past the
end of the destination, so the traced loops have no result.  And for a wide gray
drawable with alpha of 32769 x 32768 pixels the `gint` size `W * H * 4` of the source
overflows. -/
theorem gray_loops_write_outside :
    gray_pixels_bytes false false 1431655766 1 = some 1431655766 ∧
    (List.replicate 1431655766 0).length = 1431655766 / (if false then 2 else 1) ∧
    g_malloc_n 1 ((1431655766 * 3) % 2 ^ 32) 1 = [none, none] ∧
    save_layer_gray_traced false false 1431655766 1 (List.replicate 1431655766 0) = none ∧
    gray_pixels_bytes true true 32769 32768 = none := by
  have hd : g_malloc_n 1 ((1431655766 * 3) % 2 ^ 32) 1 = [none, none] := by decide
  refine ⟨by decide, by rw [List.length_replicate]; decide, hd, ?_, by decide⟩
  have hv : (List.replicate 1431655766 0)[0]? = some 0 := by
    rw [List.getElem?_replicate, if_pos (by decide)]
  have hrow := for_loop_traced_none 1431655766
    (gray_pixel_traced (List.replicate 1431655766 0))
    ⟨⟨0, 0, [none, none]⟩, [], []⟩ (by decide) (gray_pixel_traced_two_cells hv)
  have hall := for_loop_traced_none 1 (for_loop_traced 1431655766
    (gray_pixel_traced (List.replicate 1431655766 0))) ⟨⟨0, 0, [none, none]⟩, [], []⟩
    (by decide) hrow
  simp only [save_layer_gray_traced, Bool.false_eq_true, if_false, hd, hall]

/-- C13 (amended): in each of the four gray expansion loops of `save_layer`, when the
`gint` size of the source does not overflow, the source has that size, and the row size
`width * channels * bytesPerSample` is below `2^32`: every read and write is within
its buffer (the run returns); the destination offsets written are `0, ..., N - 1`, each
once and in increasing order, where `N = H * rowBytes / bytesPerSample` is the number
of samples of the allocated destination; the source offsets read are
`0, ..., W * H * c - 1` in increasing order, with `c = 1` without alpha and `c = 2` with
alpha, which is the number of samples of the source; and every destination cell holds a
value afterwards.  With alpha and at least one row, the bound on the row size follows
from the bound on the source size. -/
theorem gray_loops_accesses :
    (∀ (save_alpha usesU16 : Bool) (W H bytes : Nat) (pixels : List Nat),
      gray_pixels_bytes save_alpha usesU16 W H = some bytes →
      pixels.length = bytes / (if usesU16 then 2 else 1) →
      W * (if save_alpha then 4 else 3) * (if usesU16 then 2 else 1) < 2 ^ 32 →
      ∃ t rgb, save_layer_gray_traced save_alpha usesU16 W H pixels = some t ∧
        save_layer_rgb_u32 true save_alpha usesU16 W H pixels = some rgb ∧
        rgb.pixels = t.cursor.dest ∧
        rgb.rowBytes = rgb_rowBytes_u32 save_alpha usesU16 W ∧
        rgb.pixels.length = H * rgb.rowBytes / (if usesU16 then 2 else 1) ∧
        t.writes = List.range (H * rgb.rowBytes / (if usesU16 then 2 else 1)) ∧
        t.reads = List.range (W * H * (if save_alpha then 2 else 1)) ∧
        pixels.length = W * H * (if save_alpha then 2 else 1) ∧
        ∀ i, i < rgb.pixels.length → ∃ v, rgb.pixels[i]? = some (some v)) ∧
    (∀ (usesU16 : Bool) (W H bytes : Nat), 1 ≤ H →
      gray_pixels_bytes true usesU16 W H = some bytes →
      W * 4 * (if usesU16 then 2 else 1) < 2 ^ 32) := by
  constructor
  · intro save_alpha usesU16 W H bytes pixels hbytes hpix hfit
    obtain ⟨hsamples, _⟩ := gray_pixels_samples hbytes
    rw [hsamples] at hpix
    cases save_alpha
    · have hlen : pixels.length = W * H := by simpa using hpix
      obtain ⟨t, hrun, ⟨_, _, _, hreads, hwrites⟩, ⟨_, _, hdlen, hcells⟩, hrgb⟩ :=
        save_layer_gray_traced_plain usesU16 W H pixels hlen (by simpa using hfit)
      have hN : H * (W * (if usesU16 = true then 6 else 3)) /
          (if usesU16 = true then 2 else 1) = 3 * (W * H) := by
        cases usesU16
        · exact dest_samples W H 3 1 (by decide)
        · exact dest_samples W H 3 2 (by decide)
      refine ⟨t, _, hrun, hrgb, rfl, save_layer_rgb_u32_rowBytes hrgb, ?_, ?_, ?_, ?_, ?_⟩
      · simp only [hN]; exact hdlen
      · simp only [hN]; exact hwrites
      · simpa using hreads
      · simpa using hlen
      · intro i hi
        simp only [hdlen] at hi
        have hv : pixels[i / 3]? = some pixels[i / 3] :=
          List.getElem?_eq_getElem (by omega)
        exact ⟨pixels[i / 3], by simp only; rw [hcells i hi, hv]⟩
    · have hlen : pixels.length = 2 * (W * H) := by simpa using hpix
      obtain ⟨t, hrun, ⟨_, _, _, hreads, hwrites⟩, ⟨_, _, hdlen, hcells⟩, hrgb⟩ :=
        save_layer_gray_traced_alpha usesU16 W H pixels hlen (by simpa using hfit)
      have hN : H * (W * (if usesU16 = true then 8 else 4)) /
          (if usesU16 = true then 2 else 1) = 4 * (W * H) := by
        cases usesU16
        · exact dest_samples W H 4 1 (by decide)
        · exact dest_samples W H 4 2 (by decide)
      refine ⟨t, _, hrun, hrgb, rfl, save_layer_rgb_u32_rowBytes hrgb, ?_, ?_, ?_, ?_, ?_⟩
      · simp only [hN]; exact hdlen
      · simp only [hN]; exact hwrites
      · simp only [if_true]; rw [hreads, Nat.mul_comm]
      · simp only [if_true]; rw [hlen, Nat.mul_comm]
      · intro i hi
        simp only [hdlen] at hi
        have hv : ∀ q, q < 2 * (W * H) → ∃ v, pixels[q]? = some v := fun q hq =>
          ⟨_, List.getElem?_eq_getElem (by omega)⟩
        by_cases h3 : i % 4 = 3
        · obtain ⟨v, hq⟩ := hv (2 * (i / 4) + 1) (by omega)
          exact ⟨v, by simp only; rw [hcells i hi, if_pos h3, hq]⟩
        · obtain ⟨v, hq⟩ := hv (2 * (i / 4)) (by omega)
          exact ⟨v, by simp only; rw [hcells i hi, if_neg h3, hq]⟩
  · intro usesU16 W H bytes hH hbytes
    obtain ⟨hsamples, hle⟩ := gray_pixels_samples hbytes
    have hWH : W ≤ W * H := Nat.le_mul_of_pos_right W hH
    have h31 : (2 : Nat) ^ 31 - 1 = 2147483647 := by norm_num
    have h32 : (2 : Nat) ^ 32 = 4294967296 := by norm_num
    rw [h31] at hle
    rw [h32]
    cases usesU16
    · simp only [gray_pixels_bytes, if_true, Bool.false_eq_true, if_false] at hbytes
      split_ifs at hbytes
      cases hbytes
      simp only [Bool.false_eq_true, if_false]
      omega
    · simp only [gray_pixels_bytes, if_true] at hbytes
      split_ifs at hbytes
      cases hbytes
      simp only [if_true]
      omega

theorem gray_loops_accesses_witness :
    gray_pixels_bytes true true 2 1 = some 8 ∧
    ([10, 20, 30, 40] : List Nat).length = 8 / (if true then 2 else 1) ∧
    2 * (if true then 4 else 3) * (if true then 2 else 1) < 2 ^ 32 ∧
    ∃ t rgb, save_layer_gray_traced true true 2 1 [10, 20, 30, 40] = some t ∧
      save_layer_rgb_u32 true true true 2 1 [10, 20, 30, 40] = some rgb ∧
      rgb.rowBytes = 16 ∧
      rgb.pixels.length = 8 ∧
      t.writes = [0, 1, 2, 3, 4, 5, 6, 7] ∧
      t.reads = [0, 1, 2, 3] := by
  refine ⟨by decide, by decide, by decide, ?_⟩
  obtain ⟨t, rgb, h1, h2, _, h3, h4, h5, h6, _, _⟩ :=
    gray_loops_accesses.1 true true 2 1 8 [10, 20, 30, 40] (by decide) (by decide)
      (by decide)
  have hrow : rgb.rowBytes = 16 := by rw [h3]; decide
  rw [hrow] at h4 h5
  exact ⟨t, rgb, h1, h2, hrow, h4, h5, h6⟩

end AvifSave
